import Mathlib

/-!
Verification of the `js-deque` doubly-linked deque (`src/Deque.ts`, class
`DequeImpl`).

The heap of linked `DequeNodeImpl` objects is modelled as an arena: a list of
nodes addressed by their index, with `prev`/`next` stored as `Option Nat`
(`none` = JavaScript `null`).  A node's `data` slot has type `Option α`
(`none` = JavaScript `undefined`, as produced by `DequeNodeImpl.clear`).
Allocating `new DequeNodeImpl(d)` appends a node at the end of the arena;
this is faithful because the source never shares nodes between deques and
never compares nodes except by reference (modelled as index equality).

Loops that follow `next`/`prev` pointers are given fuel
(`nodes.length + 1`); running out of fuel models a non-terminating loop and
never happens on well-formed states.  TypeScript's `!` non-null assertions
are erased at runtime, so dereferencing the asserted value when it is
actually null/undefined throws a TypeError; operations where this can occur
(`insert`, `remove`) return an `Option`, with `none` modelling the fault.

JavaScript numbers used as indices/sizes are modelled as `Int` (all values
arising here are integral).  The default `cloneDeep` is modelled as the
identity, which is exact for the pure values of the model.  The default
lodash `isEqual` and caller-supplied equality functions are both modelled by
an explicit `eqFn : α → α → Bool` parameter, exactly as `remove` receives
one in the source.
-/

namespace JsDeque

/-- One `DequeNodeImpl` object: `prev`/`next` references and the `data`
slot (`none` models `undefined`, the state after `clear()`). -/
structure DNode (α : Type) where
  prev : Option Nat
  next : Option Nat
  data : Option α
deriving DecidableEq, Repr

/-- The all-`none` node, both the out-of-arena default and the result of
`DequeNodeImpl.clear()` (`prev = next = null`, `data = undefined`). -/
def dflt {α : Type} : DNode α := ⟨none, none, none⟩

/-- Read a node from the arena (out-of-range reads never occur on
well-formed states; they default to the cleared node). -/
def getNode {α : Type} (nodes : List (DNode α)) (i : Nat) : DNode α :=
  nodes.getD i dflt

/-- The `DequeImpl` object: `head`, `tail`, `_size` fields, plus the arena
holding every node this deque ever allocated. -/
structure DequeImpl (α : Type) where
  nodes : List (DNode α)
  head : Option Nat
  tail : Option Nat
  size : Int
deriving DecidableEq, Repr

/-- `new DequeImpl()` before `createFromArray` runs: field initializers
`head = null`, `tail = null`, `_size = 0`. -/
def emptyDeque {α : Type} : DequeImpl α := ⟨[], none, none, 0⟩

/-- `pushFront(data)`: allocate, `newNode.next = head`, fix old head's
`prev`, promote, set `tail` if the deque was empty, `return ++this._size`. -/
def pushFront {α : Type} (st : DequeImpl α) (v : α) : DequeImpl α × Int :=
  let newId := st.nodes.length
  let nodes1 := st.nodes ++ [⟨none, st.head, some v⟩]
  let nodes2 :=
    match st.head with
    | some h => nodes1.set h { getNode nodes1 h with prev := some newId }
    | none => nodes1
  let tl :=
    match st.tail with
    | none => some newId
    | some t => some t
  (⟨nodes2, some newId, tl, st.size + 1⟩, st.size + 1)

/-- `pushBack` body, generalized to an arbitrary `data` slot value: `copy()`
calls `pushBack(cloneFn(cur.data!))` where the `!` is erased, so the slot
value `cur.data` (possibly `undefined`) is passed through unchanged. -/
def pushBackD {α : Type} (st : DequeImpl α) (d : Option α) : DequeImpl α × Int :=
  let newId := st.nodes.length
  let nodes1 := st.nodes ++ [⟨st.tail, none, d⟩]
  let nodes2 :=
    match st.tail with
    | some t => nodes1.set t { getNode nodes1 t with next := some newId }
    | none => nodes1
  let hd :=
    match st.head with
    | none => some newId
    | some h => some h
  (⟨nodes2, hd, some newId, st.size + 1⟩, st.size + 1)

/-- `pushBack(data)`: allocate, `newNode.prev = tail`, fix old tail's
`next`, promote, set `head` if the deque was empty, `return ++this._size`. -/
def pushBack {α : Type} (st : DequeImpl α) (v : α) : DequeImpl α × Int :=
  pushBackD st (some v)

/-- `popFront()`: `undefined` on empty; otherwise unlink the head node,
promote its neighbor (or empty the deque), `clear()` it, decrement size. -/
def popFront {α : Type} (st : DequeImpl α) : DequeImpl α × Option α :=
  match st.head with
  | none => (st, none)
  | some h =>
    let hn := getNode st.nodes h
    let st1 :=
      match hn.next with
      | some n =>
        { st with nodes := st.nodes.set n { getNode st.nodes n with prev := none },
                  head := some n }
      | none => { st with head := none, tail := none }
    let st2 := { st1 with nodes := st1.nodes.set h dflt }
    ({ st2 with size := st2.size - 1 }, hn.data)

/-- `popBack()`: mirror image of `popFront`. -/
def popBack {α : Type} (st : DequeImpl α) : DequeImpl α × Option α :=
  match st.tail with
  | none => (st, none)
  | some t =>
    let tn := getNode st.nodes t
    let st1 :=
      match tn.prev with
      | some p =>
        { st with nodes := st.nodes.set p { getNode st.nodes p with next := none },
                  tail := some p }
      | none => { st with head := none, tail := none }
    let st2 := { st1 with nodes := st1.nodes.set t dflt }
    ({ st2 with size := st2.size - 1 }, tn.data)

/-- `enqueue` is an alias for `pushFront`. -/
def enqueue {α : Type} (st : DequeImpl α) (v : α) : DequeImpl α × Int :=
  pushFront st v

/-- `dequeue` is an alias for `popBack`. -/
def dequeue {α : Type} (st : DequeImpl α) : DequeImpl α × Option α :=
  popBack st

/-- `push` (stack usage) is an alias for `pushFront`. -/
def push {α : Type} (st : DequeImpl α) (v : α) : DequeImpl α × Int :=
  pushFront st v

/-- `pop` (stack usage) is an alias for `popFront`. -/
def pop {α : Type} (st : DequeImpl α) : DequeImpl α × Option α :=
  popFront st

/-- `front()` is `this.head?.data ?? undefined`.  The `??` also coerces a
stored JavaScript `null` to `undefined`; since the model is generic in the
value type, the caller says which values are `null` via `isNull`. -/
def front {α : Type} (isNull : α → Bool) (st : DequeImpl α) : Option α :=
  match st.head.bind (fun h => (getNode st.nodes h).data) with
  | none => none
  | some v => if isNull v then none else some v

/-- `back()` is `this.tail?.data ?? undefined`, see `front`. -/
def back {α : Type} (isNull : α → Bool) (st : DequeImpl α) : Option α :=
  match st.tail.bind (fun t => (getNode st.nodes t).data) with
  | none => none
  | some v => if isNull v then none else some v

/-- The forward loop of `getNodeAtIndex`: from `head` with `curIdx = 0`,
walk `next` until `curIdx === index` or the node becomes null. -/
def searchFwd {α : Type} (nodes : List (DNode α)) (target : Int) :
    Option Nat → Int → Nat → Option Nat
  | none, _, _ => none
  | some _, _, 0 => none
  | some nid, curIdx, fuel + 1 =>
    if curIdx = target then some nid
    else searchFwd nodes target (getNode nodes nid).next (curIdx + 1) fuel

/-- The backward loop of `getNodeAtIndex`: from `tail` with
`curIdx = size - 1`, walk `prev` until `curIdx === index`. -/
def searchBwd {α : Type} (nodes : List (DNode α)) (target : Int) :
    Option Nat → Int → Nat → Option Nat
  | none, _, _ => none
  | some _, _, 0 => none
  | some nid, curIdx, fuel + 1 =>
    if curIdx = target then some nid
    else searchBwd nodes target (getNode nodes nid).prev (curIdx - 1) fuel

/-- `getNodeAtIndex(index)`: guard, then search from the back when
`index > this.size / 2` (real-number division in JS; for integers this is
exactly `2 * index > size`), else from the front. -/
def getNodeAtIndex {α : Type} (st : DequeImpl α) (index : Int) : Option Nat :=
  if index ≥ st.size ∨ index < 0 then none
  else if 2 * index > st.size then
    searchBwd st.nodes index st.tail (st.size - 1) (st.nodes.length + 1)
  else
    searchFwd st.nodes index st.head 0 (st.nodes.length + 1)

/-- `get(index)` is `this.getNodeAtIndex(index)?.data`. -/
def get {α : Type} (st : DequeImpl α) (index : Int) : Option α :=
  (getNodeAtIndex st index).bind (fun nid => (getNode st.nodes nid).data)

/-- Reference definition, modelled from the spec's words: indexed access by
a forward traversal from the head only (what §4.5 says the backward
shortcut must agree with). -/
def getNodeAtIndexFwd {α : Type} (st : DequeImpl α) (index : Int) : Option Nat :=
  if index ≥ st.size ∨ index < 0 then none
  else searchFwd st.nodes index st.head 0 (st.nodes.length + 1)

/-- The loop of `getNodeByValue`: scan from `head` comparing
`isEqualFn(node.data!, value)`; the `!` is erased, and on well-formed
states the slot is never `undefined` (the `none` branch is unreachable and
modelled as no-match). -/
def searchVal {α : Type} (nodes : List (DNode α)) (eqFn : α → α → Bool) (value : α) :
    Option Nat → Int → Nat → Option (Nat × Int)
  | none, _, _ => none
  | some _, _, 0 => none
  | some nid, index, fuel + 1 =>
    if (match (getNode nodes nid).data with
        | some d => eqFn d value
        | none => false) then some (nid, index)
    else searchVal nodes eqFn value (getNode nodes nid).next (index + 1) fuel

/-- `getNodeByValue(value, isEqualFn)`: first matching node and its index,
or `{node: undefined, index: -1}` (modelled as `none`). -/
def getNodeByValue {α : Type} (st : DequeImpl α) (value : α)
    (eqFn : α → α → Bool) : Option (Nat × Int) :=
  searchVal st.nodes eqFn value st.head 0 (st.nodes.length + 1)

/-- `insert(index, value)`.  `none` models a TypeError fault: the two `!`
assertions are erased, so if `getNodeAtIndex` returned `undefined` the read
`node.prev` throws, and if `node.prev` was `null` the write `prev.next`
throws. -/
def insert {α : Type} (st : DequeImpl α) (index : Int) (value : α) :
    Option (DequeImpl α × Int) :=
  if index ≤ 0 then some (pushFront st value)
  else if index ≥ st.size then some (pushBack st value)
  else
    match getNodeAtIndex st index with
    | none => none
    | some nid =>
      match (getNode st.nodes nid).prev with
      | none => none
      | some pid =>
        let newId := st.nodes.length
        let nodes1 := st.nodes ++ [⟨none, none, some value⟩]
        let nodes2 := nodes1.set pid { getNode nodes1 pid with next := some newId }
        let nodes3 := nodes2.set nid { getNode nodes2 nid with prev := some newId }
        let nodes4 := nodes3.set newId
          { getNode nodes3 newId with prev := some pid, next := some nid }
        some (⟨nodes4, st.head, st.tail, st.size + 1⟩, st.size + 1)

/-- `remove(value, isEqualFn)`: find the first match; delegate to
`popFront`/`popBack` at the ends (reference comparison `node === this.head`
is index equality in the arena); otherwise read `node.data`, save the
neighbors, `clear()` the node, relink the neighbors, decrement size.
`none` models the TypeError fault of the erased `prev!`/`next!`. -/
def remove {α : Type} (st : DequeImpl α) (value : α) (eqFn : α → α → Bool) :
    Option (DequeImpl α × Option α) :=
  match getNodeByValue st value eqFn with
  | none => some (st, none)
  | some (nid, _) =>
    if st.head = some nid then some (popFront st)
    else if st.tail = some nid then some (popBack st)
    else
      let nd := getNode st.nodes nid
      match nd.prev, nd.next with
      | some pid, some nxid =>
        let nodes1 := st.nodes.set nid dflt
        let nodes2 := nodes1.set pid { getNode nodes1 pid with next := nd.next }
        let nodes3 := nodes2.set nxid { getNode nodes2 nxid with prev := nd.prev }
        some (⟨nodes3, st.head, st.tail, st.size - 1⟩, nd.data)
      | _, _ => none

/-- The loop of `clear()`: read `cur.next`, then `prev.clear()`. -/
def clearLoop {α : Type} (nodes : List (DNode α)) :
    Option Nat → Nat → List (DNode α)
  | none, _ => nodes
  | some _, 0 => nodes
  | some nid, fuel + 1 =>
    let nxt := (getNode nodes nid).next
    clearLoop (nodes.set nid dflt) nxt fuel

/-- `clear()`: clear every reachable node, then reset the three fields. -/
def clear {α : Type} (st : DequeImpl α) : DequeImpl α :=
  ⟨clearLoop st.nodes st.head (st.nodes.length + 1), none, none, 0⟩

/-- JavaScript array element assignment `arr[i] = v`: in-bounds writes
update, out-of-bounds writes extend (holes filled with `undefined`). -/
def jsSet {β : Type} (arr : List β) (i : Nat) (v : β) (d : β) : List β :=
  if i < arr.length then arr.set i v
  else arr ++ List.replicate (i - arr.length) d ++ [v]

/-- Sequential JavaScript writes `arr[i] = v; arr[i+1] = v'; ...` — the
abstract write pattern the `toArray` loop performs. -/
def jsSetSeq {β : Type} (d : β) : List β → Nat → List β → List β
  | arr, _, [] => arr
  | arr, i, v :: vs => jsSetSeq d (jsSet arr i v d) (i + 1) vs

/-- The loop of `toArray()`: `arr[i] = cloneFn(cur.data)!` walking `next`
(the default `cloneDeep` is the identity on the model's pure values). -/
def toArrayLoop {α : Type} (nodes : List (DNode α)) :
    Option Nat → Nat → List (Option α) → Nat → List (Option α)
  | none, _, arr, _ => arr
  | some _, _, arr, 0 => arr
  | some nid, i, arr, fuel + 1 =>
    toArrayLoop nodes (getNode nodes nid).next (i + 1)
      (jsSet arr i (getNode nodes nid).data none) fuel

/-- `toArray()`: `Array.from({length: this._size})` (a length-`_size`
array of `undefined` holes), then fill by walking from the head. -/
def toArray {α : Type} (st : DequeImpl α) : List (Option α) :=
  toArrayLoop st.nodes st.head 0
    (List.replicate st.size.toNat (none : Option α)) (st.nodes.length + 1)

/-- The loop of `reverse()`: save `cur.next`, swap the two links of `cur`,
remember `cur` in `prev`, advance to the saved `next`; returns the final
arena and the last visited node (`prev`). -/
def revLoop {α : Type} (nodes : List (DNode α)) :
    Option Nat → Option Nat → Nat → List (DNode α) × Option Nat
  | none, p, _ => (nodes, p)
  | some _, p, 0 => (nodes, p)
  | some nid, _, fuel + 1 =>
    let nd := getNode nodes nid
    revLoop (nodes.set nid ⟨nd.next, nd.prev, nd.data⟩) nd.next (some nid) fuel

/-- The arena after swapping `prev`/`next` of each listed node in order
(what one pass of the `reverse()` loop does to the heap). -/
def swapAll {α : Type} (nodes : List (DNode α)) : List Nat → List (DNode α)
  | [] => nodes
  | i :: rest =>
    swapAll (nodes.set i
      ⟨(getNode nodes i).next, (getNode nodes i).prev, (getNode nodes i).data⟩) rest

/-- `reverse()`: swap every node's links, then `head := prev` (the last
visited node) and `tail := oldHead`; returns `this`. -/
def reverse {α : Type} (st : DequeImpl α) : DequeImpl α :=
  let r := revLoop st.nodes st.head none (st.nodes.length + 1)
  { st with nodes := r.1, head := r.2, tail := st.head }

/-- The loop of `copy()`: walk the source from its head, doing
`copy.pushBack(cloneFn(cur.data!))` (identity clone, erased `!`). -/
def copyLoop {α : Type} (nodes : List (DNode α)) :
    Option Nat → DequeImpl α → Nat → DequeImpl α
  | none, acc, _ => acc
  | some _, acc, 0 => acc
  | some nid, acc, fuel + 1 =>
    copyLoop nodes (getNode nodes nid).next
      (pushBackD acc (getNode nodes nid).data).1 fuel

/-- `copy()`: `new DequeImpl()` then push every value to its back. -/
def copy {α : Type} (st : DequeImpl α) : DequeImpl α :=
  copyLoop st.nodes st.head emptyDeque (st.nodes.length + 1)

/-- The append loop of `createFromArray`: `newNode.prev = tail;
tail!.next = newNode; tail = newNode` (the `!` always holds here: the loop
only runs after the first element installed a tail). -/
def cfaLoop {α : Type} (st : DequeImpl α) : List α → DequeImpl α
  | [] => st
  | v :: rest =>
    let newId := st.nodes.length
    let nodes1 := st.nodes ++ [⟨st.tail, none, some v⟩]
    let nodes2 :=
      match st.tail with
      | some t => nodes1.set t { getNode nodes1 t with next := some newId }
      | none => nodes1
    cfaLoop { st with nodes := nodes2, tail := some newId } rest

/-- `createFromArray(initData, deque)` on a fresh empty deque — the body of
both the variadic constructor `new DequeImpl(...initData)` and
`DequeImpl.fromArray(initData)`: install the first element as head and
tail, append the rest, set `_size = initData.length`. -/
def createFromArray {α : Type} (initData : List α) : DequeImpl α :=
  match initData with
  | [] => { emptyDeque with size := 0 }
  | v :: rest =>
    let st0 : DequeImpl α := ⟨[⟨none, none, some v⟩], some 0, some 0, 0⟩
    let st1 := cfaLoop st0 rest
    { st1 with size := (initData.length : Int) }

/-- `DequeImpl.fromArray(initData)` = `createFromArray(initData, new DequeImpl())`. -/
def fromArray {α : Type} (initData : List α) : DequeImpl α :=
  createFromArray initData

/-- First index matching a predicate (the order `getNodeByValue` scans). -/
def firstIdxP {α : Type} (p : α → Bool) : List α → Option Nat
  | [] => none
  | x :: xs => if p x then some 0 else (firstIdxP p xs).map (· + 1)

/-- The head of `ys`, or `nx` when `ys` is empty (the `next` value the
last node before `ys` must carry). -/
def headOr (ys : List Nat) (nx : Option Nat) : Option Nat :=
  match ys with
  | [] => nx
  | j :: _ => some j

/-- The last element of `xs`, or `pv` when `xs` is empty (the `prev` value
the first node after `xs` must carry). -/
def lastOr (xs : List Nat) (pv : Option Nat) : Option Nat :=
  match xs.getLast? with
  | some j => some j
  | none => pv

/-- `chainSeg nodes pv ids nx`: `ids` is a doubly-linked segment in the
arena — the first node's `prev` is `pv`, consecutive nodes point at each
other, and the last node's `next` is `nx`. -/
def chainSeg {α : Type} (nodes : List (DNode α)) :
    Option Nat → List Nat → Option Nat → Prop
  | _, [], _ => True
  | pv, i :: rest, nx =>
    i < nodes.length ∧ (getNode nodes i).prev = pv ∧
    (getNode nodes i).next = headOr rest nx ∧
    chainSeg nodes (some i) rest nx

/-- `revChainSeg nodes nx rids pv`: the same segment described from the
other end — `rids` is in tail-to-head order, linked by `prev`, the first
node's `next` is `nx` and the last node's `prev` is `pv`. -/
def revChainSeg {α : Type} (nodes : List (DNode α)) :
    Option Nat → List Nat → Option Nat → Prop
  | _, [], _ => True
  | nx, i :: rest, pv =>
    i < nodes.length ∧ (getNode nodes i).next = nx ∧
    (getNode nodes i).prev = headOr rest pv ∧
    revChainSeg nodes (some i) rest pv

/-- Abstraction relation, size field aside: the linked structure of `st`
represents the value list `l` through the spine `ids` (head-to-tail list
of live node indices). -/
structure AbsCore {α : Type} (st : DequeImpl α) (ids : List Nat) (l : List α) : Prop where
  chain : chainSeg st.nodes none ids none
  nodup : ids.Nodup
  headEq : st.head = ids.head?
  tailEq : st.tail = ids.getLast?
  dataEq : ids.map (fun i => (getNode st.nodes i).data) = l.map some

/-- Abstraction relation: the deque `st` represents the value list `l`
through the spine `ids`, and its `_size` field agrees. -/
structure Abs {α : Type} (st : DequeImpl α) (ids : List Nat) (l : List α)
    extends AbsCore st ids l : Prop where
  sizeEq : st.size = (ids.length : Int)

/-- `st` represents the value list `l` through some spine. -/
def Models {α : Type} (st : DequeImpl α) (l : List α) : Prop :=
  ∃ ids, Abs st ids l

/-- Well-formedness: `st` represents some value list. -/
def WF {α : Type} (st : DequeImpl α) : Prop :=
  ∃ l, Models st l

/-- Collect the node indices reachable from `cur` along `next`. -/
def walkIds {α : Type} (nodes : List (DNode α)) :
    Option Nat → Nat → List Nat
  | none, _ => []
  | some _, 0 => []
  | some nid, fuel + 1 => nid :: walkIds nodes (getNode nodes nid).next fuel

/-- The invariant stated by the spec (§3), phrased executably on the model:
the size/head/tail emptiness equivalences, the single-node case, and for
larger deques the walk from the head covers exactly `size` doubly-linked
nodes ending at the tail. -/
def Invariant {α : Type} (st : DequeImpl α) : Prop :=
  (st.size = 0 ↔ st.head = none) ∧
  (st.size = 0 ↔ st.tail = none) ∧
  (st.size = 1 →
    st.head = st.tail ∧
    (match st.head with
     | some h => (getNode st.nodes h).prev = none ∧ (getNode st.nodes h).next = none
     | none => False)) ∧
  (1 < st.size →
    (match st.head with
     | some h => (getNode st.nodes h).prev = none
     | none => False) ∧
    (match st.tail with
     | some t => (getNode st.nodes t).next = none
     | none => False) ∧
    (let w := walkIds st.nodes st.head (st.nodes.length + 1)
     (w.length : Int) = st.size ∧ w.getLast? = st.tail ∧
     List.Chain' (fun a b => (getNode st.nodes a).next = some b ∧
       (getNode st.nodes b).prev = some a) w))

/-- The reachable deque states: everything a client can produce through the
public operations (the aliases `enqueue`/`dequeue`/`push`/`pop` are
definitionally the four end operations). -/
inductive Reachable {α : Type} : DequeImpl α → Prop
  | init (initData : List α) : Reachable (createFromArray initData)
  | pushFront (st : DequeImpl α) (v : α) : Reachable st → Reachable (pushFront st v).1
  | pushBack (st : DequeImpl α) (v : α) : Reachable st → Reachable (pushBack st v).1
  | popFront (st : DequeImpl α) : Reachable st → Reachable (popFront st).1
  | popBack (st : DequeImpl α) : Reachable st → Reachable (popBack st).1
  | insert (st : DequeImpl α) (i : Int) (v : α) (r : DequeImpl α × Int) :
      Reachable st → insert st i v = some r → Reachable r.1
  | remove (st : DequeImpl α) (v : α) (eqFn : α → α → Bool) (r : DequeImpl α × Option α) :
      Reachable st → remove st v eqFn = some r → Reachable r.1
  | clear (st : DequeImpl α) : Reachable st → Reachable (clear st)
  | reverse (st : DequeImpl α) : Reachable st → Reachable (reverse st)
  | copy (st : DequeImpl α) : Reachable st → Reachable (copy st)

/-! ### Arena access lemmas -/

theorem getNode_append {α : Type} {nodes more : List (DNode α)} {i : Nat}
    (h : i < nodes.length) : getNode (nodes ++ more) i = getNode nodes i := by
  simp only [getNode, List.getD_append _ _ _ _ h]

theorem getNode_append_new {α : Type} {nodes : List (DNode α)} {nd : DNode α} :
    getNode (nodes ++ [nd]) nodes.length = nd := by
  simp [getNode, List.getD_append_right _ _ _ _ (le_refl _)]

theorem getNode_set_self {α : Type} {nodes : List (DNode α)} {i : Nat}
    {nd : DNode α} (h : i < nodes.length) : getNode (nodes.set i nd) i = nd := by
  simp [getNode, List.getD_eq_getElem?_getD, List.getElem?_set_self h]

theorem getNode_set_ne {α : Type} {nodes : List (DNode α)} {i j : Nat}
    {nd : DNode α} (h : i ≠ j) : getNode (nodes.set i nd) j = getNode nodes j := by
  simp [getNode, List.getD_eq_getElem?_getD, List.getElem?_set_ne h]

/-! ### Chain segment lemmas -/

theorem headOr_append {xs ys : List Nat} {nx : Option Nat} :
    headOr (xs ++ ys) nx = headOr xs (headOr ys nx) := by
  cases xs <;> simp [headOr]

theorem lastOr_cons {x : Nat} {xs : List Nat} {pv : Option Nat} :
    lastOr (x :: xs) pv = lastOr xs (some x) := by
  match xs with
  | [] => simp [lastOr]
  | y :: ys =>
    unfold lastOr
    rw [List.getLast?_cons_cons]
    cases h : (y :: ys).getLast? with
    | none => simp at h
    | some j => rfl

theorem headOr_none {ids : List Nat} : headOr ids none = ids.head? := by
  cases ids <;> simp [headOr]

theorem lastOr_none {ids : List Nat} : lastOr ids none = ids.getLast? := by
  unfold lastOr; cases h : ids.getLast? <;> simp

theorem chainSeg_congr {α : Type} {nodes nodes' : List (DNode α)}
    {ids : List Nat} {nx : Option Nat} :
    ∀ {pv : Option Nat}, chainSeg nodes pv ids nx →
    (∀ i ∈ ids, getNode nodes' i = getNode nodes i ∧ i < nodes'.length) →
    chainSeg nodes' pv ids nx := by
  induction ids with
  | nil => intro pv _ _; trivial
  | cons i rest ih =>
    intro pv hc heq
    obtain ⟨h1, h2, h3, h4⟩ := hc
    obtain ⟨he, hl⟩ := heq i (by simp)
    exact ⟨hl, by rw [he]; exact h2, by rw [he]; exact h3,
      ih h4 (fun j hj => heq j (by simp [hj]))⟩

theorem revChainSeg_congr {α : Type} {nodes nodes' : List (DNode α)}
    {ids : List Nat} {pv : Option Nat} :
    ∀ {nx : Option Nat}, revChainSeg nodes nx ids pv →
    (∀ i ∈ ids, getNode nodes' i = getNode nodes i ∧ i < nodes'.length) →
    revChainSeg nodes' nx ids pv := by
  induction ids with
  | nil => intro nx _ _; trivial
  | cons i rest ih =>
    intro nx hc heq
    obtain ⟨h1, h2, h3, h4⟩ := hc
    obtain ⟨he, hl⟩ := heq i (by simp)
    exact ⟨hl, by rw [he]; exact h2, by rw [he]; exact h3,
      ih h4 (fun j hj => heq j (by simp [hj]))⟩

theorem chainSeg_valid {α : Type} {nodes : List (DNode α)}
    {ids : List Nat} {nx : Option Nat} :
    ∀ {pv : Option Nat}, chainSeg nodes pv ids nx → ∀ i ∈ ids, i < nodes.length := by
  induction ids with
  | nil => intro _ _ i hi; cases hi
  | cons j rest ih =>
    intro pv hc i hi
    obtain ⟨h1, _, _, h4⟩ := hc
    rcases List.mem_cons.mp hi with h | h
    · exact h ▸ h1
    · exact ih h4 i h

theorem chainSeg_append {α : Type} {nodes : List (DNode α)}
    {ys : List Nat} {nx : Option Nat} :
    ∀ (xs : List Nat) (pv : Option Nat),
    chainSeg nodes pv (xs ++ ys) nx ↔
      chainSeg nodes pv xs (headOr ys nx) ∧ chainSeg nodes (lastOr xs pv) ys nx := by
  intro xs
  induction xs with
  | nil => intro pv; simp [chainSeg, lastOr]
  | cons x xs' ih =>
    intro pv
    constructor
    · intro hc
      obtain ⟨h1, h2, h3, h4⟩ := hc
      obtain ⟨ha, hb⟩ := (ih (some x)).mp h4
      refine ⟨⟨h1, h2, ?_, ha⟩, ?_⟩
      · exact h3.trans headOr_append
      · rw [lastOr_cons]; exact hb
    · intro hc
      obtain ⟨⟨h1, h2, h3, h4⟩, hb⟩ := hc
      refine ⟨h1, h2, ?_, ?_⟩
      · exact h3.trans headOr_append.symm
      · exact (ih (some x)).mpr ⟨h4, by rw [lastOr_cons] at hb; exact hb⟩

theorem revChainSeg_append {α : Type} {nodes : List (DNode α)}
    {ys : List Nat} {pv : Option Nat} :
    ∀ (xs : List Nat) (nx : Option Nat),
    revChainSeg nodes nx (xs ++ ys) pv ↔
      revChainSeg nodes nx xs (headOr ys pv) ∧ revChainSeg nodes (lastOr xs nx) ys pv := by
  intro xs
  induction xs with
  | nil => intro nx; simp [revChainSeg, lastOr]
  | cons x xs' ih =>
    intro nx
    constructor
    · intro hc
      obtain ⟨h1, h2, h3, h4⟩ := hc
      obtain ⟨ha, hb⟩ := (ih (some x)).mp h4
      refine ⟨⟨h1, h2, ?_, ha⟩, ?_⟩
      · exact h3.trans headOr_append
      · rw [lastOr_cons]; exact hb
    · intro hc
      obtain ⟨⟨h1, h2, h3, h4⟩, hb⟩ := hc
      refine ⟨h1, h2, ?_, ?_⟩
      · exact h3.trans headOr_append.symm
      · exact (ih (some x)).mpr ⟨h4, by rw [lastOr_cons] at hb; exact hb⟩

theorem chainSeg_reverse {α : Type} {nodes : List (DNode α)} {ids : List Nat} :
    ∀ {pv nx : Option Nat}, chainSeg nodes pv ids nx →
    revChainSeg nodes nx ids.reverse pv := by
  induction ids with
  | nil => intro _ _ _; trivial
  | cons i rest ih =>
    intro pv nx hc
    obtain ⟨h1, h2, h3, h4⟩ := hc
    rw [List.reverse_cons, revChainSeg_append]
    refine ⟨?_, ?_⟩
    · have he : headOr [i] pv = some i := rfl
      rw [he]
      exact ih h4
    · refine ⟨h1, ?_, ?_, trivial⟩
      · rw [h3]
        unfold lastOr
        rw [List.getLast?_reverse]
        cases rest <;> simp [headOr]
      · exact h2

theorem nodup_length_le {ids : List Nat} {n : Nat} (hnd : ids.Nodup)
    (hval : ∀ i ∈ ids, i < n) : ids.length ≤ n := by
  calc ids.length = ids.toFinset.card := (List.toFinset_card_of_nodup hnd).symm
    _ ≤ (Finset.range n).card := by
        apply Finset.card_le_card
        intro x hx
        simp only [List.mem_toFinset] at hx
        simp only [Finset.mem_range]
        exact hval x hx
    _ = n := Finset.card_range n

theorem not_mem_of_valid {ids : List Nat} {n : Nat}
    (hval : ∀ i ∈ ids, i < n) : n ∉ ids :=
  fun hm => absurd (hval n hm) (lt_irrefl n)

theorem getLast?_cons_of_ne_nil {β : Type} {x : β} {xs : List β} (h : xs ≠ []) :
    (x :: xs).getLast? = xs.getLast? := by
  match xs, h with
  | y :: ys, _ => exact List.getLast?_cons_cons

theorem AbsCore.len_eq {α : Type} {st : DequeImpl α} {ids : List Nat} {l : List α}
    (h : AbsCore st ids l) : ids.length = l.length := by
  have := congrArg List.length h.dataEq
  simpa using this

theorem AbsCore.valid {α : Type} {st : DequeImpl α} {ids : List Nat} {l : List α}
    (h : AbsCore st ids l) : ∀ i ∈ ids, i < st.nodes.length :=
  chainSeg_valid h.chain

theorem AbsCore.len_le {α : Type} {st : DequeImpl α} {ids : List Nat} {l : List α}
    (h : AbsCore st ids l) : ids.length ≤ st.nodes.length :=
  nodup_length_le h.nodup (chainSeg_valid h.chain)

theorem AbsCore.tail_some {α : Type} {st : DequeImpl α} {hd : Nat} {rest : List Nat}
    {l : List α} (h : AbsCore st (hd :: rest) l) : ∃ t, st.tail = some t := by
  rw [h.tailEq]
  cases hg : (hd :: rest).getLast? with
  | none => simp at hg
  | some t => exact ⟨t, rfl⟩

theorem map_data_eq {α : Type} {nodes nodes2 : List (DNode α)} {ids : List Nat}
    {l : List α} (hdt : ids.map (fun i => (getNode nodes i).data) = l.map some)
    (hcong : ∀ i ∈ ids, (getNode nodes2 i).data = (getNode nodes i).data) :
    ids.map (fun i => (getNode nodes2 i).data) = l.map some :=
  (List.map_congr_left hcong).trans hdt

/-! ### `pushFront` and `pushBack` -/

theorem pushFront_abs {α : Type} {st : DequeImpl α} {ids : List Nat} {l : List α}
    (h : Abs st ids l) (v : α) :
    Abs (pushFront st v).1 (st.nodes.length :: ids) (v :: l) ∧
      (pushFront st v).2 = st.size + 1 := by
  refine ⟨?_, rfl⟩
  cases ids with
  | nil =>
    have hl : l = [] := by
      have := h.dataEq
      simp only [List.map_nil] at this
      exact List.map_eq_nil_iff.mp this.symm
    subst hl
    have hh : st.head = none := by simpa using h.headEq
    have ht : st.tail = none := by simpa using h.tailEq
    have hs : st.size = 0 := by simpa using h.sizeEq
    have hpf : (pushFront st v).1 =
        ⟨st.nodes ++ [(⟨none, st.head, some v⟩ : DNode α)], some st.nodes.length,
          some st.nodes.length, st.size + 1⟩ := by
      simp only [pushFront, hh, ht]
    rw [hpf]
    refine ⟨⟨?_, ?_, ?_, ?_, ?_⟩, ?_⟩
    · exact ⟨by simp, by rw [getNode_append_new], by rw [getNode_append_new, hh]; rfl, trivial⟩
    · simp
    · rfl
    · rfl
    · simp [getNode_append_new]
    · simp [hs]
  | cons hd rest =>
    have hh : st.head = some hd := by simpa using h.headEq
    obtain ⟨t, ht⟩ := h.toAbsCore.tail_some
    have hval := h.toAbsCore.valid
    have hbound : hd < st.nodes.length := hval hd (by simp)
    obtain ⟨_, hprev, hnext, hrest⟩ := h.chain
    have hpf : (pushFront st v).1 =
        ⟨(st.nodes ++ [(⟨none, st.head, some v⟩ : DNode α)]).set hd
            { getNode (st.nodes ++ [(⟨none, st.head, some v⟩ : DNode α)]) hd with
                prev := some st.nodes.length },
          some st.nodes.length, st.tail, st.size + 1⟩ := by
      simp only [pushFront, hh, ht]
    have hgOld : getNode (st.nodes ++ [(⟨none, st.head, some v⟩ : DNode α)]) hd =
        getNode st.nodes hd := getNode_append hbound
    have hlen2 : ((st.nodes ++ [(⟨none, st.head, some v⟩ : DNode α)]).set hd
        { getNode (st.nodes ++ [(⟨none, st.head, some v⟩ : DNode α)]) hd with
            prev := some st.nodes.length }).length = st.nodes.length + 1 := by
      simp
    have hfresh : st.nodes.length ∉ hd :: rest := not_mem_of_valid hval
    have hgNew : getNode ((st.nodes ++ [(⟨none, st.head, some v⟩ : DNode α)]).set hd
        { getNode (st.nodes ++ [(⟨none, st.head, some v⟩ : DNode α)]) hd with
            prev := some st.nodes.length }) st.nodes.length =
        ⟨none, st.head, some v⟩ := by
      rw [getNode_set_ne (Nat.ne_of_lt hbound), getNode_append_new]
    have hgHd : getNode ((st.nodes ++ [(⟨none, st.head, some v⟩ : DNode α)]).set hd
        { getNode (st.nodes ++ [(⟨none, st.head, some v⟩ : DNode α)]) hd with
            prev := some st.nodes.length }) hd =
        { getNode st.nodes hd with prev := some st.nodes.length } := by
      rw [getNode_set_self (by simp only [List.length_append, List.length_cons]; omega), hgOld]
    have hgOther : ∀ j ∈ rest, getNode ((st.nodes ++ [(⟨none, st.head, some v⟩ : DNode α)]).set hd
        { getNode (st.nodes ++ [(⟨none, st.head, some v⟩ : DNode α)]) hd with
            prev := some st.nodes.length }) j = getNode st.nodes j := by
      intro j hj
      have hjhd : hd ≠ j := fun he => (List.nodup_cons.mp h.nodup).1 (he ▸ hj)
      rw [getNode_set_ne hjhd, getNode_append (hval j (by simp [hj]))]
    rw [hpf]
    refine ⟨⟨?_, ?_, ?_, ?_, ?_⟩, ?_⟩
    · refine ⟨by rw [hlen2]; omega, by rw [hgNew], by rw [hgNew, hh]; rfl, ?_⟩
      refine ⟨by rw [hlen2]; omega, by rw [hgHd], by rw [hgHd]; exact hnext, ?_⟩
      refine chainSeg_congr hrest ?_
      intro j hj
      exact ⟨hgOther j hj, by rw [hlen2]; exact Nat.lt_succ_of_lt (hval j (by simp [hj]))⟩
    · exact List.nodup_cons.mpr ⟨hfresh, h.nodup⟩
    · rfl
    · show st.tail = (st.nodes.length :: hd :: rest).getLast?
      rw [getLast?_cons_of_ne_nil (by simp), h.tailEq]
    · simp only [List.map_cons]
      have h1 : (getNode ((st.nodes ++ [(⟨none, st.head, some v⟩ : DNode α)]).set hd
          { getNode (st.nodes ++ [(⟨none, st.head, some v⟩ : DNode α)]) hd with
              prev := some st.nodes.length }) st.nodes.length).data = some v := by
        rw [hgNew]
      have h2 : (hd :: rest).map (fun i => (getNode ((st.nodes ++
          [(⟨none, st.head, some v⟩ : DNode α)]).set hd
          { getNode (st.nodes ++ [(⟨none, st.head, some v⟩ : DNode α)]) hd with
              prev := some st.nodes.length }) i).data) = l.map some := by
        refine map_data_eq h.dataEq ?_
        intro j hj
        rcases List.mem_cons.mp hj with he | hm
        · subst he; rw [hgHd]
        · rw [hgOther j hm]
      rw [h1]
      simp only [List.map_cons] at h2
      rw [h2]
    · have hsz := h.sizeEq
      simp only [List.length_cons] at hsz ⊢
      omega


theorem head?_append_ne_nil {β : Type} {xs ys : List β} (h : xs ≠ []) :
    (xs ++ ys).head? = xs.head? := by
  match xs, h with
  | x :: xs', _ => rfl

theorem nodup_snoc {xs : List Nat} {n : Nat} (h : xs.Nodup) (hn : n ∉ xs) :
    (xs ++ [n]).Nodup := by
  simp [List.nodup_append, h, hn]

theorem pushBackD_core_snoc {α : Type} {st : DequeImpl α} {A : List Nat} {tl : Nat}
    {l : List α} (h : AbsCore st (A ++ [tl]) l) (v : α) :
    AbsCore (pushBackD st (some v)).1 ((A ++ [tl]) ++ [st.nodes.length]) (l ++ [v]) := by
  have ht : st.tail = some tl := by rw [h.tailEq, List.getLast?_concat]
  obtain ⟨h0, hh⟩ : ∃ x, st.head = some x := by
    rw [h.headEq]
    cases A with
    | nil => exact ⟨tl, rfl⟩
    | cons a A' => exact ⟨a, rfl⟩
  have hval := h.valid
  have htl : tl < st.nodes.length := hval tl (by simp)
  have hfresh : st.nodes.length ∉ A ++ [tl] := not_mem_of_valid hval
  have htlA : tl ∉ A := by
    have := h.nodup
    rw [List.nodup_append] at this
    intro hm
    exact this.2.2 hm (by simp)
  obtain ⟨hcA, hcT⟩ := (@chainSeg_append _ _ [tl] _ A none).mp h.chain
  obtain ⟨_, hTprev, hTnext, -⟩ := hcT
  have hpb : (pushBackD st (some v)).1 =
      ⟨(st.nodes ++ [(⟨st.tail, none, some v⟩ : DNode α)]).set tl
          { getNode (st.nodes ++ [(⟨st.tail, none, some v⟩ : DNode α)]) tl with
              next := some st.nodes.length },
        st.head, some st.nodes.length, st.size + 1⟩ := by
    simp only [pushBackD, ht, hh]
  have hgOld : getNode (st.nodes ++ [(⟨st.tail, none, some v⟩ : DNode α)]) tl =
      getNode st.nodes tl := getNode_append htl
  have hlen2 : ((st.nodes ++ [(⟨st.tail, none, some v⟩ : DNode α)]).set tl
      { getNode (st.nodes ++ [(⟨st.tail, none, some v⟩ : DNode α)]) tl with
          next := some st.nodes.length }).length = st.nodes.length + 1 := by
    simp
  have hgNew : getNode ((st.nodes ++ [(⟨st.tail, none, some v⟩ : DNode α)]).set tl
      { getNode (st.nodes ++ [(⟨st.tail, none, some v⟩ : DNode α)]) tl with
          next := some st.nodes.length }) st.nodes.length =
      ⟨st.tail, none, some v⟩ := by
    rw [getNode_set_ne (Nat.ne_of_lt htl), getNode_append_new]
  have hgTl : getNode ((st.nodes ++ [(⟨st.tail, none, some v⟩ : DNode α)]).set tl
      { getNode (st.nodes ++ [(⟨st.tail, none, some v⟩ : DNode α)]) tl with
          next := some st.nodes.length }) tl =
      { getNode st.nodes tl with next := some st.nodes.length } := by
    rw [getNode_set_self (by simp only [List.length_append, List.length_cons]; omega), hgOld]
  have hgOther : ∀ j ∈ A, getNode ((st.nodes ++
      [(⟨st.tail, none, some v⟩ : DNode α)]).set tl
      { getNode (st.nodes ++ [(⟨st.tail, none, some v⟩ : DNode α)]) tl with
          next := some st.nodes.length }) j = getNode st.nodes j := by
    intro j hj
    have hjtl : tl ≠ j := fun he => htlA (he ▸ hj)
    rw [getNode_set_ne hjtl, getNode_append (hval j (by simp [hj]))]
  rw [hpb]
  refine ⟨?_, ?_, ?_, ?_, ?_⟩
  · rw [chainSeg_append]
    refine ⟨?_, ?_⟩
    · rw [chainSeg_append]
      refine ⟨?_, ?_⟩
      · refine chainSeg_congr hcA ?_
        intro j hj
        exact ⟨hgOther j hj, by rw [hlen2]; exact Nat.lt_succ_of_lt (hval j (by simp [hj]))⟩
      · refine ⟨by rw [hlen2]; omega, by rw [hgTl]; exact hTprev, by rw [hgTl]; rfl, trivial⟩
    · refine ⟨by rw [hlen2]; omega, ?_, by rw [hgNew]; rfl, trivial⟩
      rw [hgNew]
      show st.tail = lastOr (A ++ [tl]) none
      rw [lastOr_none, List.getLast?_concat, ht]
  · exact nodup_snoc h.nodup hfresh
  · show st.head = _
    rw [head?_append_ne_nil (by simp), h.headEq]
  · show some st.nodes.length = _
    rw [List.getLast?_concat]
  · rw [List.map_append, List.map_append]
    have h2 : (A ++ [tl]).map (fun i => (getNode ((st.nodes ++
        [(⟨st.tail, none, some v⟩ : DNode α)]).set tl
        { getNode (st.nodes ++ [(⟨st.tail, none, some v⟩ : DNode α)]) tl with
            next := some st.nodes.length }) i).data) = l.map some := by
      refine map_data_eq h.dataEq ?_
      intro j hj
      rcases List.mem_append.mp hj with hm | hm
      · rw [hgOther j hm]
      · have : j = tl := by simpa using hm
        subst this
        rw [hgTl]
    rw [List.map_append] at h2
    rw [h2]
    simp [hgNew]

theorem pushBackD_core {α : Type} {st : DequeImpl α} {ids : List Nat}
    {l : List α} (h : AbsCore st ids l) (v : α) :
    AbsCore (pushBackD st (some v)).1 (ids ++ [st.nodes.length]) (l ++ [v]) := by
  cases hids : ids with
  | nil =>
    subst hids
    have hl : l = [] := by
      have := h.dataEq
      simp only [List.map_nil] at this
      exact List.map_eq_nil_iff.mp this.symm
    subst hl
    have hh : st.head = none := by simpa using h.headEq
    have ht : st.tail = none := by simpa using h.tailEq
    have hpb : (pushBackD st (some v)).1 =
        ⟨st.nodes ++ [⟨st.tail, none, some v⟩], some st.nodes.length,
          some st.nodes.length, st.size + 1⟩ := by
      simp only [pushBackD, hh, ht]
    rw [hpb]
    refine ⟨?_, ?_, ?_, ?_, ?_⟩
    · exact ⟨by simp, by rw [getNode_append_new, ht], by rw [getNode_append_new]; rfl, trivial⟩
    · simp
    · rfl
    · rfl
    · simp [getNode_append_new]
  | cons hd0 rest0 =>
    have hne : (hd0 :: rest0 : List Nat) ≠ [] := by simp
    have hsplit : (hd0 :: rest0).dropLast ++ [(hd0 :: rest0).getLast hne] =
        hd0 :: rest0 := List.dropLast_append_getLast hne
    subst hids
    have h' : AbsCore st ((hd0 :: rest0).dropLast ++
        [(hd0 :: rest0).getLast hne]) l := hsplit.symm ▸ h
    have := pushBackD_core_snoc h' v
    rw [hsplit] at this
    exact this

theorem pushBack_abs {α : Type} {st : DequeImpl α} {ids : List Nat} {l : List α}
    (h : Abs st ids l) (v : α) :
    Abs (pushBack st v).1 (ids ++ [st.nodes.length]) (l ++ [v]) ∧
      (pushBack st v).2 = st.size + 1 := by
  refine ⟨⟨pushBackD_core h.toAbsCore v, ?_⟩, rfl⟩
  have hsz : (pushBackD st (some v)).1.size = st.size + 1 := rfl
  show (pushBackD st (some v)).1.size = _
  rw [hsz, h.sizeEq]
  simp only [List.length_append, List.length_cons, List.length_nil]
  omega

/-! ### `popFront` and `popBack` -/

theorem popFront_empty {α : Type} {st : DequeImpl α} (hh : st.head = none) :
    popFront st = (st, none) := by
  simp only [popFront, hh]

theorem popBack_empty {α : Type} {st : DequeImpl α} (ht : st.tail = none) :
    popBack st = (st, none) := by
  simp only [popBack, ht]

theorem popFront_abs_cons {α : Type} {st : DequeImpl α} {hd : Nat} {rest : List Nat}
    {x : α} {l' : List α} (h : Abs st (hd :: rest) (x :: l')) :
    Abs (popFront st).1 rest l' ∧ (popFront st).2 = some x := by
  have hh : st.head = some hd := by simpa using h.headEq
  obtain ⟨hbound, hprev, hnext, hrest⟩ := h.chain
  have hdt := h.dataEq
  simp only [List.map_cons, List.cons.injEq] at hdt
  obtain ⟨hdx, hdrest⟩ := hdt
  have hval := h.toAbsCore.valid
  cases rest with
  | nil =>
    have hl' : l' = [] := by
      simp only [List.map_nil] at hdrest
      exact List.map_eq_nil_iff.mp hdrest.symm
    subst hl'
    have hnx : (getNode st.nodes hd).next = none := hnext
    have hpf : popFront st =
        (⟨st.nodes.set hd dflt, none, none, st.size - 1⟩,
          (getNode st.nodes hd).data) := by
      simp only [popFront, hh, hnx]
    rw [hpf]
    refine ⟨⟨⟨trivial, by simp, rfl, rfl, by simp⟩, ?_⟩, hdx⟩
    have := h.sizeEq
    simp only [List.length_cons, List.length_nil] at this ⊢
    omega
  | cons n rest' =>
    have hnx : (getNode st.nodes hd).next = some n := hnext
    obtain ⟨hbn, hpn, hnn, hrest'⟩ := hrest
    have hndhd : hd ∉ n :: rest' := (List.nodup_cons.mp h.nodup).1
    have hpf : popFront st =
        (⟨(st.nodes.set n { getNode st.nodes n with prev := none }).set hd dflt,
          some n, st.tail, st.size - 1⟩, (getNode st.nodes hd).data) := by
      simp only [popFront, hh, hnx]
    have hlen2 : ((st.nodes.set n { getNode st.nodes n with prev := none }).set hd
        dflt).length = st.nodes.length := by simp
    have hgN : getNode ((st.nodes.set n { getNode st.nodes n with prev := none }).set hd
        dflt) n = { getNode st.nodes n with prev := none } := by
      have hhdn : hd ≠ n := fun he => hndhd (by simp [he])
      rw [getNode_set_ne hhdn, getNode_set_self hbn]
    have hgOther : ∀ j ∈ rest', getNode ((st.nodes.set n
        { getNode st.nodes n with prev := none }).set hd dflt) j =
        getNode st.nodes j := by
      intro j hj
      have hhdj : hd ≠ j := fun he => hndhd (by simp [he ▸ hj])
      have hnj : n ≠ j := fun he => (List.nodup_cons.mp
        (List.nodup_cons.mp h.nodup).2).1 (he ▸ hj)
      rw [getNode_set_ne hhdj, getNode_set_ne hnj]
    rw [hpf]
    refine ⟨⟨⟨?_, ?_, rfl, ?_, ?_⟩, ?_⟩, hdx⟩
    · refine ⟨by rw [hlen2]; exact hbn, by rw [hgN], by rw [hgN]; exact hnn, ?_⟩
      refine chainSeg_congr hrest' ?_
      intro j hj
      exact ⟨hgOther j hj, by rw [hlen2]; exact hval j (by simp [hj])⟩
    · exact (List.nodup_cons.mp h.nodup).2
    · show st.tail = _
      rw [h.tailEq, getLast?_cons_of_ne_nil (by simp)]
    · simp only [List.map_cons] at hdrest ⊢
      rw [← hdrest]
      refine congrArg₂ _ (by rw [hgN]) ?_
      exact List.map_congr_left (fun j hj => by rw [hgOther j hj])
    · have := h.sizeEq
      simp only [List.length_cons] at this ⊢
      omega

theorem popBack_abs_snoc {α : Type} {st : DequeImpl α} {A : List Nat} {tl : Nat}
    {lf : List α} {x : α} (h : Abs st (A ++ [tl]) (lf ++ [x])) :
    Abs (popBack st).1 A lf ∧ (popBack st).2 = some x := by
  have ht : st.tail = some tl := by rw [h.tailEq, List.getLast?_concat]
  have hval := h.toAbsCore.valid
  have htl : tl < st.nodes.length := hval tl (by simp)
  obtain ⟨hcA, hcT⟩ := (@chainSeg_append _ _ [tl] _ A none).mp h.chain
  obtain ⟨-, hTprev, hTnext, -⟩ := hcT
  have hTnext' : (getNode st.nodes tl).next = none := hTnext
  have hlenA : A.length = lf.length := by
    have := h.toAbsCore.len_eq
    simp only [List.length_append, List.length_cons, List.length_nil] at this
    omega
  have hdt := h.dataEq
  rw [List.map_append, List.map_append] at hdt
  obtain ⟨hdA, hdT⟩ := List.append_inj' hdt (by simp)
  have hdx : (getNode st.nodes tl).data = some x := by simpa using hdT
  have hndA := h.nodup
  rw [List.nodup_append] at hndA
  have htlA : tl ∉ A := fun hm => hndA.2.2 hm (by simp)
  cases A with
  | nil =>
    have hlf : lf = [] := by
      simp only [List.map_nil] at hdA
      exact List.map_eq_nil_iff.mp hdA.symm
    subst hlf
    have hTp : (getNode st.nodes tl).prev = none := by
      rw [hTprev]; rfl
    have hpb : popBack st =
        (⟨st.nodes.set tl dflt, none, none, st.size - 1⟩,
          (getNode st.nodes tl).data) := by
      simp only [popBack, ht, hTp]
    rw [hpb]
    refine ⟨⟨⟨trivial, by simp, rfl, rfl, by simp⟩, ?_⟩, hdx⟩
    have := h.sizeEq
    simp only [List.length_append, List.length_cons, List.length_nil] at this ⊢
    omega
  | cons a0 A0 =>
    have hne : (a0 :: A0 : List Nat) ≠ [] := by simp
    have hsplit : (a0 :: A0).dropLast ++ [(a0 :: A0).getLast hne] = a0 :: A0 :=
      List.dropLast_append_getLast hne
    obtain ⟨A', p, hAsplit⟩ : ∃ A' p, a0 :: A0 = A' ++ [p] :=
      ⟨(a0 :: A0).dropLast, (a0 :: A0).getLast hne, hsplit.symm⟩
    rw [hAsplit] at hcA htlA hndA hdA hlenA ⊢
    have hTp : (getNode st.nodes tl).prev = some p := by
      rw [hTprev, hAsplit, lastOr_none, List.getLast?_concat]
    have hp : p < st.nodes.length := hval p (by simp [hAsplit])
    have hptl : p ≠ tl := fun he => htlA (he ▸ (by simp : p ∈ A' ++ [p]))
    obtain ⟨hcA', hcP⟩ := (@chainSeg_append _ _ [p] _ A' none).mp hcA
    obtain ⟨-, hPprev, hPnext, -⟩ := hcP
    have hpef : popBack st =
        (⟨(st.nodes.set p { getNode st.nodes p with next := none }).set tl dflt,
          st.head, some p, st.size - 1⟩, (getNode st.nodes tl).data) := by
      simp only [popBack, ht, hTp]
    have hlen2 : ((st.nodes.set p { getNode st.nodes p with next := none }).set tl
        dflt).length = st.nodes.length := by simp
    have hgP : getNode ((st.nodes.set p { getNode st.nodes p with next := none }).set tl
        dflt) p = { getNode st.nodes p with next := none } := by
      rw [getNode_set_ne (fun he => hptl he.symm), getNode_set_self hp]
    have hgOther : ∀ j ∈ A', getNode ((st.nodes.set p
        { getNode st.nodes p with next := none }).set tl dflt) j =
        getNode st.nodes j := by
      intro j hj
      have htlj : tl ≠ j := fun he => htlA (he ▸ (by simp [hj] : j ∈ A' ++ [p]))
      have hpj : p ≠ j := by
        intro he
        have := hndA.1
        rw [List.nodup_append] at this
        exact this.2.2 (he ▸ hj) (by simp)
      rw [getNode_set_ne htlj, getNode_set_ne hpj]
    rw [hpef]
    refine ⟨⟨⟨?_, ?_, ?_, ?_, ?_⟩, ?_⟩, hdx⟩
    · rw [chainSeg_append]
      refine ⟨?_, ?_⟩
      · refine chainSeg_congr hcA' ?_
        intro j hj
        exact ⟨hgOther j hj, by rw [hlen2]; exact hval j (by simp [hAsplit, hj])⟩
      · refine ⟨by rw [hlen2]; exact hp, by rw [hgP]; exact hPprev, by rw [hgP]; rfl,
          trivial⟩
    · exact hndA.1
    · show st.head = _
      rw [← hAsplit, h.headEq]
      simp
    · show some p = _
      rw [List.getLast?_concat]
    · refine map_data_eq hdA ?_
      intro j hj
      rcases List.mem_append.mp hj with hm | hm
      · rw [hgOther j hm]
      · have : j = p := by simpa using hm
        subst this
        rw [hgP]
    · have hlen3 : (a0 :: A0).length = (A' ++ [p]).length := congrArg List.length hAsplit
      have := h.sizeEq
      simp only [List.length_append, List.length_cons, List.length_nil] at this hlen3 ⊢
      omega

/-! ### Traversal loops -/

theorem searchFwd_spec {α : Type} {nodes : List (DNode α)} {target : Int} :
    ∀ {ids : List Nat} {pv nx : Option Nat} (c : Int) (k : Nat) {fuel : Nat},
    chainSeg nodes pv ids nx → target = c + k → (hk : k < ids.length) →
    ids.length ≤ fuel →
    searchFwd nodes target (headOr ids nx) c fuel = some ids[k] := by
  intro ids
  induction ids with
  | nil => intro _ _ _ k _ _ _ hk _; exact absurd hk (by simp)
  | cons i rest ih =>
    intro pv nx c k fuel hc htgt hk hf
    obtain ⟨-, -, hnext, hrest⟩ := hc
    have hf2 : rest.length + 1 ≤ fuel := by simpa using hf
    have hk2 : k < rest.length + 1 := by simpa using hk
    obtain ⟨f, rfl⟩ : ∃ f, fuel = f + 1 := ⟨fuel - 1, by omega⟩
    show searchFwd nodes target (some i) c (f + 1) = _
    by_cases hk0 : k = 0
    · subst hk0
      have : c = target := by omega
      simp [searchFwd, this]
    · obtain ⟨k', rfl⟩ : ∃ k', k = k' + 1 := ⟨k - 1, by omega⟩
      have hk3 : k' < rest.length := by omega
      have hne : ¬(c = target) := by
        intro he
        rw [he] at htgt
        omega
      rw [searchFwd, if_neg hne, hnext]
      have hel : (i :: rest)[k' + 1] = rest[k'] :=
        List.getElem_cons_succ i rest k' hk
      rw [hel]
      exact ih (c + 1) k' hrest (by omega) hk3 (by omega)

theorem searchBwd_spec {α : Type} {nodes : List (DNode α)} {target : Int} :
    ∀ {rids : List Nat} {nx pv : Option Nat} (c : Int) (k : Nat) {fuel : Nat},
    revChainSeg nodes nx rids pv → target = c - k → (hk : k < rids.length) →
    rids.length ≤ fuel →
    searchBwd nodes target (headOr rids pv) c fuel = some rids[k] := by
  intro rids
  induction rids with
  | nil => intro _ _ _ k _ _ _ hk _; exact absurd hk (by simp)
  | cons i rest ih =>
    intro nx pv c k fuel hc htgt hk hf
    obtain ⟨-, -, hprev, hrest⟩ := hc
    have hf2 : rest.length + 1 ≤ fuel := by simpa using hf
    have hk2 : k < rest.length + 1 := by simpa using hk
    obtain ⟨f, rfl⟩ : ∃ f, fuel = f + 1 := ⟨fuel - 1, by omega⟩
    show searchBwd nodes target (some i) c (f + 1) = _
    by_cases hk0 : k = 0
    · subst hk0
      have : c = target := by omega
      simp [searchBwd, this]
    · obtain ⟨k', rfl⟩ : ∃ k', k = k' + 1 := ⟨k - 1, by omega⟩
      have hk3 : k' < rest.length := by omega
      have hne : ¬(c = target) := by
        intro he
        rw [he] at htgt
        omega
      rw [searchBwd, if_neg hne, hprev]
      have hel : (i :: rest)[k' + 1] = rest[k'] :=
        List.getElem_cons_succ i rest k' hk
      rw [hel]
      exact ih (c - 1) k' hrest (by omega) hk3 (by omega)

theorem walkIds_spec {α : Type} {nodes : List (DNode α)} :
    ∀ {ids : List Nat} {pv : Option Nat} {fuel : Nat},
    chainSeg nodes pv ids none → ids.length ≤ fuel →
    walkIds nodes (headOr ids none) fuel = ids := by
  intro ids
  induction ids with
  | nil => intro _ fuel _ _; cases fuel <;> rfl
  | cons i rest ih =>
    intro pv fuel hc hf
    obtain ⟨-, -, hnext, hrest⟩ := hc
    have hf2 : rest.length + 1 ≤ fuel := by simpa using hf
    obtain ⟨f, rfl⟩ : ∃ f, fuel = f + 1 := ⟨fuel - 1, by omega⟩
    show walkIds nodes (some i) (f + 1) = _
    rw [walkIds, hnext, ih hrest (by omega)]

theorem searchVal_spec {α : Type} {nodes : List (DNode α)}
    {eqFn : α → α → Bool} {value : α} :
    ∀ {ids : List Nat} {l : List α} {pv : Option Nat} (c : Int) {fuel : Nat},
    chainSeg nodes pv ids none →
    ids.map (fun i => (getNode nodes i).data) = l.map some →
    ids.length ≤ fuel →
    match firstIdxP (fun y => eqFn y value) l with
    | none => searchVal nodes eqFn value (headOr ids none) c fuel = none
    | some k => ∃ hk : k < ids.length,
        searchVal nodes eqFn value (headOr ids none) c fuel =
          some (ids[k], c + k) := by
  intro ids
  induction ids with
  | nil =>
    intro l pv c fuel hc hdt hf
    have hl : l = [] := by
      simp only [List.map_nil] at hdt
      exact List.map_eq_nil_iff.mp hdt.symm
    subst hl
    show searchVal nodes eqFn value none c fuel = none
    cases fuel <;> rfl
  | cons i rest ih =>
    intro l pv c fuel hc hdt hf
    obtain ⟨-, -, hnext, hrest⟩ := hc
    cases l with
    | nil => exact absurd (congrArg List.length hdt) (by simp)
    | cons x l' =>
      simp only [List.map_cons, List.cons.injEq] at hdt
      obtain ⟨hdx, hdrest⟩ := hdt
      have hf2 : rest.length + 1 ≤ fuel := by simpa using hf
      obtain ⟨f, rfl⟩ : ∃ f, fuel = f + 1 := ⟨fuel - 1, by omega⟩
      show match firstIdxP (fun y => eqFn y value) (x :: l') with
        | none => searchVal nodes eqFn value (some i) c (f + 1) = none
        | some k => ∃ hk, searchVal nodes eqFn value (some i) c (f + 1) =
            some ((i :: rest)[k], c + k)
      by_cases hx : eqFn x value
      · rw [show firstIdxP (fun y => eqFn y value) (x :: l') = some 0 by
          simp [firstIdxP, hx]]
        refine ⟨by simp, ?_⟩
        rw [searchVal, hdx]
        simp [hx]
      · rw [show firstIdxP (fun y => eqFn y value) (x :: l') =
          (firstIdxP (fun y => eqFn y value) l').map (· + 1) by
          simp [firstIdxP, hx]]
        have hstep : searchVal nodes eqFn value (some i) c (f + 1) =
            searchVal nodes eqFn value (headOr rest none) (c + 1) f := by
          rw [searchVal, hdx]
          simp [hx, hnext]
        have hrec := @ih l' (some i) (c + 1) f hrest hdrest (by omega)
        cases hfi : firstIdxP (fun y => eqFn y value) l' with
        | none =>
          rw [hfi] at hrec
          show searchVal nodes eqFn value (some i) c (f + 1) = none
          rw [hstep]
          exact hrec
        | some k' =>
          rw [hfi] at hrec
          obtain ⟨hk', hval⟩ := hrec
          have hkk : k' + 1 < (i :: rest).length := by
            simp only [List.length_cons]
            omega
          refine ⟨hkk, ?_⟩
          rw [hstep, hval]
          have h1 : (i :: rest)[k' + 1] = rest[k'] :=
            List.getElem_cons_succ i rest k' hkk
          rw [h1]
          refine congrArg _ ?_
          refine congrArg _ ?_
          push_cast
          ring

theorem take_set_succ {β : Type} {arr : List β} {i : Nat} {v : β}
    (h : i < arr.length) : (arr.set i v).take (i + 1) = arr.take i ++ [v] := by
  rw [List.set_eq_take_cons_drop _ h, List.take_append_eq_append_take]
  simp [List.take_of_length_le, Nat.le_of_lt h]

theorem jsSetSeq_spec {β : Type} {d : β} :
    ∀ (vals arr : List β) (i : Nat), i + vals.length ≤ arr.length →
    jsSetSeq d arr i vals = arr.take i ++ vals ++ arr.drop (i + vals.length) := by
  intro vals
  induction vals with
  | nil =>
    intro arr i h
    show arr = _
    simp only [List.append_nil, Nat.add_zero]
    exact (List.take_append_drop i arr).symm
  | cons v vs ih =>
    intro arr i h
    simp only [List.length_cons] at h
    have hib : i < arr.length := by omega
    show jsSetSeq d (jsSet arr i v d) (i + 1) vs = _
    rw [show jsSet arr i v d = arr.set i v from by simp [jsSet, hib]]
    rw [ih (arr.set i v) (i + 1) (by simp only [List.length_set]; omega)]
    rw [take_set_succ hib, List.drop_set_of_lt _ _ (by omega : i < i + 1 + vs.length)]
    have hidx : i + 1 + vs.length = i + (vs.length + 1) := by omega
    rw [hidx]
    simp [List.append_assoc]

theorem toArrayLoop_spec {α : Type} {nodes : List (DNode α)} :
    ∀ {ids : List Nat} {pv : Option Nat} {fuel : Nat},
    chainSeg nodes pv ids none → ids.length ≤ fuel →
    ∀ (arr : List (Option α)) (i : Nat),
    toArrayLoop nodes (headOr ids none) i arr fuel =
      jsSetSeq none arr i (ids.map (fun j => (getNode nodes j).data)) := by
  intro ids
  induction ids with
  | nil => intro _ fuel _ _ arr i; cases fuel <;> rfl
  | cons j rest ih =>
    intro pv fuel hc hf arr i
    obtain ⟨-, -, hnext, hrest⟩ := hc
    have hf2 : rest.length + 1 ≤ fuel := by simpa using hf
    obtain ⟨f, rfl⟩ : ∃ f, fuel = f + 1 := ⟨fuel - 1, by omega⟩
    show toArrayLoop nodes (some j) i arr (f + 1) = _
    rw [toArrayLoop, hnext, ih hrest (by omega)]
    rfl

theorem toArray_abs {α : Type} {st : DequeImpl α} {ids : List Nat} {l : List α}
    (h : Abs st ids l) : toArray st = l.map some := by
  unfold toArray
  rw [show st.head = headOr ids none from by rw [h.headEq, headOr_none]]
  rw [toArrayLoop_spec h.chain (Nat.le_succ_of_le h.toAbsCore.len_le), h.dataEq]
  have hlen : l.length = st.size.toNat := by
    rw [h.sizeEq, ← h.toAbsCore.len_eq]
    simp
  rw [jsSetSeq_spec _ _ _ (by simp [hlen])]
  simp [List.drop_of_length_le, hlen]

/-! ### `getNodeAtIndex` and `get` -/

theorem getNodeAtIndex_spec {α : Type} {st : DequeImpl α} {ids : List Nat}
    {l : List α} (h : Abs st ids l) (index : Int) :
    (0 ≤ index → index < st.size →
      ∃ hk : index.toNat < ids.length, getNodeAtIndex st index = some ids[index.toNat]) ∧
    ((index < 0 ∨ st.size ≤ index) → getNodeAtIndex st index = none) := by
  constructor
  · intro h0 hlt
    have hk : index.toNat < ids.length := by
      have := h.sizeEq
      omega
    refine ⟨hk, ?_⟩
    have hguard : ¬(index ≥ st.size ∨ index < 0) := by omega
    rw [getNodeAtIndex, if_neg hguard]
    by_cases hbwd : 2 * index > st.size
    · rw [if_pos hbwd]
      have hrev : revChainSeg st.nodes none ids.reverse none :=
        chainSeg_reverse h.chain
      have htl : st.tail = headOr ids.reverse none := by
        rw [h.tailEq, headOr_none, List.head?_reverse]
      have hlen1 : 1 ≤ ids.length := by omega
      have hkk : ids.length - 1 - index.toNat < ids.reverse.length := by
        simp only [List.length_reverse]
        omega
      rw [htl]
      rw [searchBwd_spec (st.size - 1) (ids.length - 1 - index.toNat) hrev
        (by have := h.sizeEq; omega)
        hkk
        (by simp only [List.length_reverse]; exact Nat.le_succ_of_le h.toAbsCore.len_le)]
      rw [List.getElem_reverse]
      simp only [show ids.length - 1 - (ids.length - 1 - index.toNat) = index.toNat
        from by omega]
    · rw [if_neg hbwd]
      have hhd : st.head = headOr ids none := by rw [h.headEq, headOr_none]
      rw [hhd]
      rw [searchFwd_spec 0 index.toNat h.chain (by omega) hk
        (Nat.le_succ_of_le h.toAbsCore.len_le)]
  · intro hout
    have hguard : index ≥ st.size ∨ index < 0 := by omega
    rw [getNodeAtIndex, if_pos hguard]

theorem data_at_spine {α : Type} {st : DequeImpl α} {ids : List Nat} {l : List α}
    (h : Abs st ids l) {k : Nat} (hk : k < ids.length) :
    ∃ hkl : k < l.length, (getNode st.nodes ids[k]).data = some l[k] := by
  have hkl : k < l.length := by rw [← h.toAbsCore.len_eq]; exact hk
  refine ⟨hkl, ?_⟩
  have := congrArg (fun m => m[k]?) h.dataEq
  simp only [List.getElem?_map] at this
  rw [List.getElem?_eq_getElem hk, List.getElem?_eq_getElem hkl] at this
  simpa using this

theorem get_spec {α : Type} {st : DequeImpl α} {ids : List Nat} {l : List α}
    (h : Abs st ids l) (index : Int) :
    (0 ≤ index → index < st.size →
      ∃ hkl : index.toNat < l.length, get st index = some l[index.toNat]) ∧
    ((index < 0 ∨ st.size ≤ index) → get st index = none) := by
  obtain ⟨hin, hout⟩ := getNodeAtIndex_spec h index
  constructor
  · intro h0 hlt
    obtain ⟨hk, hnode⟩ := hin h0 hlt
    obtain ⟨hkl, hdata⟩ := data_at_spine h hk
    refine ⟨hkl, ?_⟩
    rw [get, hnode]
    simpa using hdata
  · intro ho
    rw [get, hout ho]
    rfl

theorem getNodeAtIndexFwd_spec {α : Type} {st : DequeImpl α} {ids : List Nat}
    {l : List α} (h : Abs st ids l) (index : Int) :
    (0 ≤ index → index < st.size →
      ∃ hk : index.toNat < ids.length,
        getNodeAtIndexFwd st index = some ids[index.toNat]) ∧
    ((index < 0 ∨ st.size ≤ index) → getNodeAtIndexFwd st index = none) := by
  constructor
  · intro h0 hlt
    have hk : index.toNat < ids.length := by
      have := h.sizeEq
      omega
    refine ⟨hk, ?_⟩
    have hguard : ¬(index ≥ st.size ∨ index < 0) := by omega
    rw [getNodeAtIndexFwd, if_neg hguard]
    rw [show st.head = headOr ids none from by rw [h.headEq, headOr_none]]
    rw [searchFwd_spec 0 index.toNat h.chain (by omega) hk
      (Nat.le_succ_of_le h.toAbsCore.len_le)]
  · intro hout
    have hguard : index ≥ st.size ∨ index < 0 := by omega
    rw [getNodeAtIndexFwd, if_pos hguard]

theorem getNodeAtIndex_eq_fwd {α : Type} {st : DequeImpl α} {l : List α}
    (h : Models st l) (index : Int) :
    getNodeAtIndex st index = getNodeAtIndexFwd st index := by
  obtain ⟨ids, h⟩ := h
  obtain ⟨hin, hout⟩ := getNodeAtIndex_spec h index
  obtain ⟨hin', hout'⟩ := getNodeAtIndexFwd_spec h index
  by_cases hr : 0 ≤ index ∧ index < st.size
  · obtain ⟨hk, h1⟩ := hin hr.1 hr.2
    obtain ⟨hk2, h2⟩ := hin' hr.1 hr.2
    rw [h1, h2]
  · rw [hout (by omega), hout' (by omega)]

theorem getNodeByValue_spec {α : Type} {st : DequeImpl α} {ids : List Nat}
    {l : List α} (h : Abs st ids l) (value : α) (eqFn : α → α → Bool) :
    match firstIdxP (fun y => eqFn y value) l with
    | none => getNodeByValue st value eqFn = none
    | some k => ∃ hk : k < ids.length,
        getNodeByValue st value eqFn = some (ids[k], (k : Int)) := by
  have := @searchVal_spec _ st.nodes eqFn value _ _ _
    (0 : Int) _ h.chain h.dataEq (Nat.le_succ_of_le h.toAbsCore.len_le)
  rw [getNodeByValue, show st.head = headOr ids none from by rw [h.headEq, headOr_none]]
  cases hfi : firstIdxP (fun y => eqFn y value) l with
  | none => rw [hfi] at this; exact this
  | some k =>
    rw [hfi] at this
    obtain ⟨hk, hval⟩ := this
    refine ⟨hk, ?_⟩
    rw [hval]
    simp

theorem getLast?_append_ne_nil {β : Type} {xs ys : List β} (h : ys ≠ []) :
    (xs ++ ys).getLast? = ys.getLast? := by
  rw [List.getLast?_append]
  cases hy : ys.getLast? with
  | none => rw [List.getLast?_eq_none_iff] at hy; exact absurd hy h
  | some j => rfl

theorem insertIdx_eq_take_cons_drop {β : Type} :
    ∀ (k : Nat) (a : β) (l : List β), k ≤ l.length →
    l.insertIdx k a = l.take k ++ a :: l.drop k := by
  intro k
  induction k with
  | zero => intro a l _; simp [List.insertIdx_zero]
  | succ k' ih =>
    intro a l hlen
    cases l with
    | nil => simp at hlen
    | cons x xs =>
      rw [List.insertIdx_succ_cons, ih a xs (by simpa using hlen)]
      rfl

/-! ### `insert` -/

theorem insert_abs_mid {α : Type} {st : DequeImpl α} {ids : List Nat} {l : List α}
    (h : Abs st ids l) {index : Int} (v : α) (h0 : 0 < index) (hlt : index < st.size) :
    ∃ st', insert st index v = some (st', st.size + 1) ∧
      Abs st' (ids.take index.toNat ++ st.nodes.length :: ids.drop index.toNat)
        (l.take index.toNat ++ v :: l.drop index.toNat) := by
  have hK : index.toNat < ids.length := by have := h.sizeEq; omega
  have hK1 : 1 ≤ index.toNat := by omega
  have hval := h.toAbsCore.valid
  have hnd := h.nodup
  obtain ⟨hk', hAtIdx⟩ := (getNodeAtIndex_spec h index).1 (by omega) hlt
  have hKm1 : index.toNat - 1 < ids.length := by omega
  have hsplit : ids.take index.toNat ++ ids.drop index.toNat = ids := List.take_append_drop index.toNat ids
  have hdropc : ids.drop index.toNat = ids[index.toNat] :: ids.drop (index.toNat + 1) := List.drop_eq_getElem_cons hK
  have htakec : ids.take index.toNat = ids.take (index.toNat - 1) ++ [ids[index.toNat - 1]] := by
    conv_lhs => rw [show index.toNat = (index.toNat - 1) + 1 from by omega]
    rw [List.take_succ, List.getElem?_eq_getElem hKm1]
    rfl
  have hch : chainSeg st.nodes none (ids.take index.toNat ++ ids.drop index.toNat) none := by
    rw [hsplit]; exact h.chain
  rw [chainSeg_append] at hch
  obtain ⟨hcA, hcB⟩ := hch
  have hcB2 := hcB
  rw [hdropc] at hcB2
  obtain ⟨hbnid, hprevNid, hnextNid, hcB3⟩ := hcB2
  have hlastTake : lastOr (ids.take index.toNat) none = some ids[index.toNat - 1] := by
    rw [lastOr_none, htakec, List.getLast?_concat]
  have hPrev : (getNode st.nodes ids[index.toNat]).prev = some ids[index.toNat - 1] := by
    rw [hprevNid, hlastTake]
  have hcA2 : chainSeg st.nodes none (ids.take (index.toNat - 1) ++ [ids[index.toNat - 1]])
      (headOr (ids.drop index.toNat) none) := by rw [← htakec]; exact hcA
  rw [chainSeg_append] at hcA2
  obtain ⟨hcA1, hcP⟩ := hcA2
  obtain ⟨hbpid, hprevPid, hnextPid, -⟩ := hcP
  -- distinctness and membership facts
  have hpidnid : ids[index.toNat - 1] ≠ ids[index.toNat] := by
    intro he
    rw [List.Nodup.getElem_inj_iff hnd] at he
    omega
  have hNfresh : st.nodes.length ∉ ids := not_mem_of_valid hval
  have hndsplit := hnd
  rw [← hsplit, List.nodup_append] at hndsplit
  obtain ⟨hndT, hndD, hdisj⟩ := hndsplit
  have hpidT : ids[index.toNat - 1] ∈ ids.take index.toNat := by
    rw [htakec]
    exact List.mem_append_right _ (List.mem_singleton_self _)
  have hnidD : ids[index.toNat] ∈ ids.drop index.toNat := by
    rw [hdropc]
    exact List.mem_cons_self _ _
  have hpidTm1 : ids[index.toNat - 1] ∉ ids.take (index.toNat - 1) := by
    have := hndT
    rw [htakec, List.nodup_append] at this
    intro hm
    exact this.2.2 hm (by simp)
  have hnidDp1 : ids[index.toNat] ∉ ids.drop (index.toNat + 1) := by
    have := hndD
    rw [hdropc, List.nodup_cons] at this
    exact this.1
  have hvalT : ∀ j ∈ ids.take index.toNat, j < st.nodes.length :=
    fun j hj => hval j (List.take_subset _ _ hj)
  have hvalD : ∀ j ∈ ids.drop index.toNat, j < st.nodes.length :=
    fun j hj => hval j (List.drop_subset _ _ hj)
  have hbK : ids[index.toNat] < st.nodes.length := hval _ (List.getElem_mem hK)
  have hbKm1 : ids[index.toNat - 1] < st.nodes.length := hval _ (List.getElem_mem hKm1)
  -- the new arena
  have hlen4 : ((((st.nodes ++ [(⟨none, none, some v⟩ : DNode α)]).set ids[index.toNat - 1] { getNode (st.nodes ++ [(⟨none, none, some v⟩ : DNode α)]) ids[index.toNat - 1] with next := some st.nodes.length }).set ids[index.toNat] { getNode ((st.nodes ++ [(⟨none, none, some v⟩ : DNode α)]).set ids[index.toNat - 1] { getNode (st.nodes ++ [(⟨none, none, some v⟩ : DNode α)]) ids[index.toNat - 1] with next := some st.nodes.length }) ids[index.toNat] with prev := some st.nodes.length }).set st.nodes.length { getNode (((st.nodes ++ [(⟨none, none, some v⟩ : DNode α)]).set ids[index.toNat - 1] { getNode (st.nodes ++ [(⟨none, none, some v⟩ : DNode α)]) ids[index.toNat - 1] with next := some st.nodes.length }).set ids[index.toNat] { getNode ((st.nodes ++ [(⟨none, none, some v⟩ : DNode α)]).set ids[index.toNat - 1] { getNode (st.nodes ++ [(⟨none, none, some v⟩ : DNode α)]) ids[index.toNat - 1] with next := some st.nodes.length }) ids[index.toNat] with prev := some st.nodes.length }) st.nodes.length with prev := some ids[index.toNat - 1], next := some ids[index.toNat] }).length = st.nodes.length + 1 := by simp
  have hgN4 : getNode ((((st.nodes ++ [(⟨none, none, some v⟩ : DNode α)]).set ids[index.toNat - 1] { getNode (st.nodes ++ [(⟨none, none, some v⟩ : DNode α)]) ids[index.toNat - 1] with next := some st.nodes.length }).set ids[index.toNat] { getNode ((st.nodes ++ [(⟨none, none, some v⟩ : DNode α)]).set ids[index.toNat - 1] { getNode (st.nodes ++ [(⟨none, none, some v⟩ : DNode α)]) ids[index.toNat - 1] with next := some st.nodes.length }) ids[index.toNat] with prev := some st.nodes.length }).set st.nodes.length { getNode (((st.nodes ++ [(⟨none, none, some v⟩ : DNode α)]).set ids[index.toNat - 1] { getNode (st.nodes ++ [(⟨none, none, some v⟩ : DNode α)]) ids[index.toNat - 1] with next := some st.nodes.length }).set ids[index.toNat] { getNode ((st.nodes ++ [(⟨none, none, some v⟩ : DNode α)]).set ids[index.toNat - 1] { getNode (st.nodes ++ [(⟨none, none, some v⟩ : DNode α)]) ids[index.toNat - 1] with next := some st.nodes.length }) ids[index.toNat] with prev := some st.nodes.length }) st.nodes.length with prev := some ids[index.toNat - 1], next := some ids[index.toNat] }) st.nodes.length =
      ⟨some ids[index.toNat - 1], some ids[index.toNat], some v⟩ := by
    rw [getNode_set_self (by rw [show (((st.nodes ++ [(⟨none, none, some v⟩ : DNode α)]).set ids[index.toNat - 1] { getNode (st.nodes ++ [(⟨none, none, some v⟩ : DNode α)]) ids[index.toNat - 1] with next := some st.nodes.length }).set ids[index.toNat] { getNode ((st.nodes ++ [(⟨none, none, some v⟩ : DNode α)]).set ids[index.toNat - 1] { getNode (st.nodes ++ [(⟨none, none, some v⟩ : DNode α)]) ids[index.toNat - 1] with next := some st.nodes.length }) ids[index.toNat] with prev := some st.nodes.length }).length = st.nodes.length + 1 from by simp]; omega)]
    rw [getNode_set_ne (Nat.ne_of_lt hbK), getNode_set_ne (Nat.ne_of_lt hbKm1),
      getNode_append_new]
  have hgPid4 : getNode ((((st.nodes ++ [(⟨none, none, some v⟩ : DNode α)]).set ids[index.toNat - 1] { getNode (st.nodes ++ [(⟨none, none, some v⟩ : DNode α)]) ids[index.toNat - 1] with next := some st.nodes.length }).set ids[index.toNat] { getNode ((st.nodes ++ [(⟨none, none, some v⟩ : DNode α)]).set ids[index.toNat - 1] { getNode (st.nodes ++ [(⟨none, none, some v⟩ : DNode α)]) ids[index.toNat - 1] with next := some st.nodes.length }) ids[index.toNat] with prev := some st.nodes.length }).set st.nodes.length { getNode (((st.nodes ++ [(⟨none, none, some v⟩ : DNode α)]).set ids[index.toNat - 1] { getNode (st.nodes ++ [(⟨none, none, some v⟩ : DNode α)]) ids[index.toNat - 1] with next := some st.nodes.length }).set ids[index.toNat] { getNode ((st.nodes ++ [(⟨none, none, some v⟩ : DNode α)]).set ids[index.toNat - 1] { getNode (st.nodes ++ [(⟨none, none, some v⟩ : DNode α)]) ids[index.toNat - 1] with next := some st.nodes.length }) ids[index.toNat] with prev := some st.nodes.length }) st.nodes.length with prev := some ids[index.toNat - 1], next := some ids[index.toNat] }) ids[index.toNat - 1] =
      { getNode st.nodes ids[index.toNat - 1] with next := some st.nodes.length } := by
    rw [getNode_set_ne (Nat.ne_of_gt hbKm1), getNode_set_ne (fun he => hpidnid he.symm),
      getNode_set_self (by simp only [List.length_set, List.length_append, List.length_cons]; omega), getNode_append hbKm1]
  have hgNid4 : getNode ((((st.nodes ++ [(⟨none, none, some v⟩ : DNode α)]).set ids[index.toNat - 1] { getNode (st.nodes ++ [(⟨none, none, some v⟩ : DNode α)]) ids[index.toNat - 1] with next := some st.nodes.length }).set ids[index.toNat] { getNode ((st.nodes ++ [(⟨none, none, some v⟩ : DNode α)]).set ids[index.toNat - 1] { getNode (st.nodes ++ [(⟨none, none, some v⟩ : DNode α)]) ids[index.toNat - 1] with next := some st.nodes.length }) ids[index.toNat] with prev := some st.nodes.length }).set st.nodes.length { getNode (((st.nodes ++ [(⟨none, none, some v⟩ : DNode α)]).set ids[index.toNat - 1] { getNode (st.nodes ++ [(⟨none, none, some v⟩ : DNode α)]) ids[index.toNat - 1] with next := some st.nodes.length }).set ids[index.toNat] { getNode ((st.nodes ++ [(⟨none, none, some v⟩ : DNode α)]).set ids[index.toNat - 1] { getNode (st.nodes ++ [(⟨none, none, some v⟩ : DNode α)]) ids[index.toNat - 1] with next := some st.nodes.length }) ids[index.toNat] with prev := some st.nodes.length }) st.nodes.length with prev := some ids[index.toNat - 1], next := some ids[index.toNat] }) ids[index.toNat] =
      { getNode st.nodes ids[index.toNat] with prev := some st.nodes.length } := by
    rw [getNode_set_ne (Nat.ne_of_gt hbK),
      getNode_set_self (by simp only [List.length_set, List.length_append, List.length_cons]; omega),
      getNode_set_ne hpidnid, getNode_append hbK]
  have hgOther : ∀ j, j ∈ ids → j ≠ ids[index.toNat - 1] → j ≠ ids[index.toNat] →
      getNode ((((st.nodes ++ [(⟨none, none, some v⟩ : DNode α)]).set ids[index.toNat - 1] { getNode (st.nodes ++ [(⟨none, none, some v⟩ : DNode α)]) ids[index.toNat - 1] with next := some st.nodes.length }).set ids[index.toNat] { getNode ((st.nodes ++ [(⟨none, none, some v⟩ : DNode α)]).set ids[index.toNat - 1] { getNode (st.nodes ++ [(⟨none, none, some v⟩ : DNode α)]) ids[index.toNat - 1] with next := some st.nodes.length }) ids[index.toNat] with prev := some st.nodes.length }).set st.nodes.length { getNode (((st.nodes ++ [(⟨none, none, some v⟩ : DNode α)]).set ids[index.toNat - 1] { getNode (st.nodes ++ [(⟨none, none, some v⟩ : DNode α)]) ids[index.toNat - 1] with next := some st.nodes.length }).set ids[index.toNat] { getNode ((st.nodes ++ [(⟨none, none, some v⟩ : DNode α)]).set ids[index.toNat - 1] { getNode (st.nodes ++ [(⟨none, none, some v⟩ : DNode α)]) ids[index.toNat - 1] with next := some st.nodes.length }) ids[index.toNat] with prev := some st.nodes.length }) st.nodes.length with prev := some ids[index.toNat - 1], next := some ids[index.toNat] }) j = getNode st.nodes j := by
    intro j hj hj1 hj2
    have hjb : j < st.nodes.length := hval j hj
    rw [getNode_set_ne (Nat.ne_of_gt hjb), getNode_set_ne (fun he => hj2 he.symm),
      getNode_set_ne (fun he => hj1 he.symm), getNode_append hjb]
  -- reduction of insert
  have hins : insert st index v =
      some (⟨((((st.nodes ++ [(⟨none, none, some v⟩ : DNode α)]).set ids[index.toNat - 1] { getNode (st.nodes ++ [(⟨none, none, some v⟩ : DNode α)]) ids[index.toNat - 1] with next := some st.nodes.length }).set ids[index.toNat] { getNode ((st.nodes ++ [(⟨none, none, some v⟩ : DNode α)]).set ids[index.toNat - 1] { getNode (st.nodes ++ [(⟨none, none, some v⟩ : DNode α)]) ids[index.toNat - 1] with next := some st.nodes.length }) ids[index.toNat] with prev := some st.nodes.length }).set st.nodes.length { getNode (((st.nodes ++ [(⟨none, none, some v⟩ : DNode α)]).set ids[index.toNat - 1] { getNode (st.nodes ++ [(⟨none, none, some v⟩ : DNode α)]) ids[index.toNat - 1] with next := some st.nodes.length }).set ids[index.toNat] { getNode ((st.nodes ++ [(⟨none, none, some v⟩ : DNode α)]).set ids[index.toNat - 1] { getNode (st.nodes ++ [(⟨none, none, some v⟩ : DNode α)]) ids[index.toNat - 1] with next := some st.nodes.length }) ids[index.toNat] with prev := some st.nodes.length }) st.nodes.length with prev := some ids[index.toNat - 1], next := some ids[index.toNat] }), st.head, st.tail, st.size + 1⟩, st.size + 1) := by
    rw [insert, if_neg (by omega), if_neg (by omega)]
    rw [hAtIdx]
    show (match (getNode st.nodes ids[index.toNat]).prev with
      | none => none
      | some pid => _) = _
    rw [hPrev]
  refine ⟨_, hins, ⟨⟨?_, ?_, ?_, ?_, ?_⟩, ?_⟩⟩
  · -- chain
    show chainSeg ((((st.nodes ++ [(⟨none, none, some v⟩ : DNode α)]).set ids[index.toNat - 1] { getNode (st.nodes ++ [(⟨none, none, some v⟩ : DNode α)]) ids[index.toNat - 1] with next := some st.nodes.length }).set ids[index.toNat] { getNode ((st.nodes ++ [(⟨none, none, some v⟩ : DNode α)]).set ids[index.toNat - 1] { getNode (st.nodes ++ [(⟨none, none, some v⟩ : DNode α)]) ids[index.toNat - 1] with next := some st.nodes.length }) ids[index.toNat] with prev := some st.nodes.length }).set st.nodes.length { getNode (((st.nodes ++ [(⟨none, none, some v⟩ : DNode α)]).set ids[index.toNat - 1] { getNode (st.nodes ++ [(⟨none, none, some v⟩ : DNode α)]) ids[index.toNat - 1] with next := some st.nodes.length }).set ids[index.toNat] { getNode ((st.nodes ++ [(⟨none, none, some v⟩ : DNode α)]).set ids[index.toNat - 1] { getNode (st.nodes ++ [(⟨none, none, some v⟩ : DNode α)]) ids[index.toNat - 1] with next := some st.nodes.length }) ids[index.toNat] with prev := some st.nodes.length }) st.nodes.length with prev := some ids[index.toNat - 1], next := some ids[index.toNat] }) none (ids.take index.toNat ++ st.nodes.length :: ids.drop index.toNat) none
    rw [chainSeg_append]
    constructor
    · -- the front segment, ending in ids[index.toNat-1] now pointing at the new node
      rw [htakec, chainSeg_append]
      constructor
      · refine chainSeg_congr hcA1 ?_
        intro j hj
        have hjT : j ∈ ids.take index.toNat := by
          rw [htakec]
          exact List.mem_append_left _ hj
        refine ⟨?_, by rw [hlen4]; exact Nat.lt_succ_of_lt (hvalT j hjT)⟩
        refine hgOther j (List.take_subset _ _ hjT) (fun he => hpidTm1 (he ▸ hj)) ?_
        exact fun he => hdisj hjT (he ▸ hnidD)
      · refine ⟨by rw [hlen4]; omega, ?_, ?_, trivial⟩
        · rw [hgPid4]; exact hprevPid
        · rw [hgPid4]; rfl
    · refine ⟨by rw [hlen4]; omega, ?_, ?_, ?_⟩
      · rw [hgN4]
        show some ids[index.toNat - 1] = lastOr (ids.take index.toNat) none
        rw [hlastTake]
      · rw [hgN4, hdropc]; rfl
      · rw [hdropc]
        refine ⟨by rw [hlen4]; exact Nat.lt_succ_of_lt hbK, ?_, ?_, ?_⟩
        · rw [hgNid4]
        · rw [hgNid4]
          show (getNode st.nodes ids[index.toNat]).next = _
          exact hnextNid
        · refine chainSeg_congr hcB3 ?_
          intro j hj
          have hjD : j ∈ ids.drop index.toNat := by
            rw [hdropc]
            exact List.mem_cons_of_mem _ hj
          refine ⟨?_, by rw [hlen4]; exact Nat.lt_succ_of_lt (hvalD j hjD)⟩
          refine hgOther j (List.drop_subset _ _ hjD)
            (fun he => hdisj hpidT (he ▸ hjD)) (fun he => hnidDp1 (he ▸ hj))
  · -- nodup
    rw [List.nodup_middle, List.nodup_cons, hsplit]
    exact ⟨hNfresh, hnd⟩
  · -- head
    have htkne : ids.take index.toNat ≠ [] := by
      intro he
      have := congrArg List.length he
      rw [List.length_take] at this
      simp only [List.length_nil] at this
      omega
    show st.head = _
    rw [head?_append_ne_nil htkne, h.headEq]
    conv_lhs => rw [← hsplit]
    rw [head?_append_ne_nil htkne]
  · -- tail
    have hdrne : ids.drop index.toNat ≠ [] := by
      intro he
      have := congrArg List.length he
      rw [List.length_drop] at this
      simp only [List.length_nil] at this
      omega
    show st.tail = _
    rw [getLast?_append_ne_nil (by simp), getLast?_cons_of_ne_nil hdrne, h.tailEq]
    conv_lhs => rw [← hsplit]
    rw [getLast?_append_ne_nil hdrne]
  · -- data
    have hKl : index.toNat ≤ l.length := by
      have := h.toAbsCore.len_eq
      omega
    rw [List.map_append, List.map_append, List.map_cons, List.map_cons]
    have hT : (ids.take index.toNat).map (fun i => (getNode ((((st.nodes ++ [(⟨none, none, some v⟩ : DNode α)]).set ids[index.toNat - 1] { getNode (st.nodes ++ [(⟨none, none, some v⟩ : DNode α)]) ids[index.toNat - 1] with next := some st.nodes.length }).set ids[index.toNat] { getNode ((st.nodes ++ [(⟨none, none, some v⟩ : DNode α)]).set ids[index.toNat - 1] { getNode (st.nodes ++ [(⟨none, none, some v⟩ : DNode α)]) ids[index.toNat - 1] with next := some st.nodes.length }) ids[index.toNat] with prev := some st.nodes.length }).set st.nodes.length { getNode (((st.nodes ++ [(⟨none, none, some v⟩ : DNode α)]).set ids[index.toNat - 1] { getNode (st.nodes ++ [(⟨none, none, some v⟩ : DNode α)]) ids[index.toNat - 1] with next := some st.nodes.length }).set ids[index.toNat] { getNode ((st.nodes ++ [(⟨none, none, some v⟩ : DNode α)]).set ids[index.toNat - 1] { getNode (st.nodes ++ [(⟨none, none, some v⟩ : DNode α)]) ids[index.toNat - 1] with next := some st.nodes.length }) ids[index.toNat] with prev := some st.nodes.length }) st.nodes.length with prev := some ids[index.toNat - 1], next := some ids[index.toNat] }) i).data) =
        (l.take index.toNat).map some := by
      have hT0 : (ids.take index.toNat).map (fun i => (getNode st.nodes i).data) =
          (l.take index.toNat).map some := by
        rw [List.map_take, List.map_take, h.dataEq]
      refine map_data_eq hT0 ?_
      intro j hj
      by_cases hje : j = ids[index.toNat - 1]
      · subst hje; rw [hgPid4]
      · rw [hgOther j (List.take_subset _ _ hj) hje
          (fun he => hdisj hj (he ▸ hnidD))]
    have hD : (ids.drop index.toNat).map (fun i => (getNode ((((st.nodes ++ [(⟨none, none, some v⟩ : DNode α)]).set ids[index.toNat - 1] { getNode (st.nodes ++ [(⟨none, none, some v⟩ : DNode α)]) ids[index.toNat - 1] with next := some st.nodes.length }).set ids[index.toNat] { getNode ((st.nodes ++ [(⟨none, none, some v⟩ : DNode α)]).set ids[index.toNat - 1] { getNode (st.nodes ++ [(⟨none, none, some v⟩ : DNode α)]) ids[index.toNat - 1] with next := some st.nodes.length }) ids[index.toNat] with prev := some st.nodes.length }).set st.nodes.length { getNode (((st.nodes ++ [(⟨none, none, some v⟩ : DNode α)]).set ids[index.toNat - 1] { getNode (st.nodes ++ [(⟨none, none, some v⟩ : DNode α)]) ids[index.toNat - 1] with next := some st.nodes.length }).set ids[index.toNat] { getNode ((st.nodes ++ [(⟨none, none, some v⟩ : DNode α)]).set ids[index.toNat - 1] { getNode (st.nodes ++ [(⟨none, none, some v⟩ : DNode α)]) ids[index.toNat - 1] with next := some st.nodes.length }) ids[index.toNat] with prev := some st.nodes.length }) st.nodes.length with prev := some ids[index.toNat - 1], next := some ids[index.toNat] }) i).data) =
        (l.drop index.toNat).map some := by
      have hD0 : (ids.drop index.toNat).map (fun i => (getNode st.nodes i).data) =
          (l.drop index.toNat).map some := by
        rw [List.map_drop, List.map_drop, h.dataEq]
      refine map_data_eq hD0 ?_
      intro j hj
      by_cases hje : j = ids[index.toNat]
      · subst hje; rw [hgNid4]
      · rw [hgOther j (List.drop_subset _ _ hj)
          (fun he => hdisj hpidT (he ▸ hj)) hje]
    rw [hT, hD, hgN4]
  · -- size
    show st.size + 1 = _
    have h1 := h.sizeEq
    have h2 : (ids.take index.toNat).length = index.toNat := by
      rw [List.length_take]
      omega
    simp only [List.length_append, List.length_cons, h2]
    rw [h1]
    have h3 : index.toNat + (ids.drop index.toNat).length = ids.length := by
      have := congrArg List.length hsplit
      simp only [List.length_append, h2] at this
      omega
    push_cast
    omega

theorem head?_eq_getElem_zero {β : Type} {xs : List β} (h : 0 < xs.length) :
    xs.head? = some xs[0] := by
  match xs, h with
  | x :: xs', _ => rfl

/-! ### `remove` -/

theorem remove_spec {α : Type} {st : DequeImpl α} {ids : List Nat} {l : List α}
    (h : Abs st ids l) (value : α) (eqFn : α → α → Bool) :
    match firstIdxP (fun y => eqFn y value) l with
    | none => remove st value eqFn = some (st, none)
    | some k => ∃ hkl : k < l.length, ∃ st',
        remove st value eqFn = some (st', some l[k]) ∧
        Models st' (l.take k ++ l.drop (k + 1)) ∧
        st'.size = st.size - 1 := by
  have hspec := getNodeByValue_spec h value eqFn
  cases hfi : firstIdxP (fun y => eqFn y value) l with
  | none =>
    rw [hfi] at hspec
    show remove st value eqFn = some (st, none)
    simp only [remove, hspec]
  | some k =>
    rw [hfi] at hspec
    obtain ⟨hk, hgnbv⟩ := hspec
    have hkl : k < l.length := by rw [← h.toAbsCore.len_eq]; exact hk
    have hlen0 : 0 < ids.length := by omega
    have hhead0 : st.head = some ids[0] := by
      rw [h.headEq]
      exact head?_eq_getElem_zero hlen0
    have htailL : st.tail = some ids[ids.length - 1] := by
      rw [h.tailEq, List.getLast?_eq_getElem?, List.getElem?_eq_getElem (by omega)]
    refine ⟨hkl, ?_⟩
    by_cases hk0 : k = 0
    · subst hk0
      have hidc := List.drop_eq_getElem_cons hlen0
      simp only [List.drop_zero] at hidc
      have hlen0l : 0 < l.length := hkl
      have hlc := List.drop_eq_getElem_cons hlen0l
      simp only [List.drop_zero] at hlc
      have h2 : Abs st (ids[0] :: ids.drop (0 + 1)) (l[0] :: l.drop (0 + 1)) := by
        rw [← hidc, ← hlc]; exact h
      obtain ⟨habs, hret⟩ := popFront_abs_cons h2
      refine ⟨(popFront st).1, ?_, ?_, ?_⟩
      · have hrm : remove st value eqFn = some (popFront st) := by
          simp only [remove, hgnbv, if_pos hhead0]
        rw [hrm, ← hret]
      · show Models _ (l.take 0 ++ l.drop (0 + 1))
        simp only [List.take_zero, List.nil_append]
        exact ⟨_, habs⟩
      · have h1 := habs.sizeEq
        have h2' := h.sizeEq
        rw [h1, h2']
        simp only [List.length_drop]
        push_cast
        omega
    · have hcond1 : ¬(st.head = some ids[k]) := by
        rw [hhead0]
        intro he
        simp only [Option.some.injEq] at he
        rw [List.Nodup.getElem_inj_iff h.nodup] at he
        omega
      by_cases hklast : k = ids.length - 1
      · have hcond2 : st.tail = some ids[k] := by
          rw [htailL]
          subst hklast
          rfl
        have hdk1 : ids.drop (k + 1) = [] := List.drop_of_length_le (by omega)
        have hldk1 : l.drop (k + 1) = [] :=
          List.drop_of_length_le (by have := h.toAbsCore.len_eq; omega)
        have hidseq : ids.take k ++ [ids[k]] = ids := by
          rw [show [ids[k]] = ids.drop k from by
            rw [List.drop_eq_getElem_cons hk, hdk1]]
          exact List.take_append_drop k ids
        have hlseq : l.take k ++ [l[k]] = l := by
          rw [show [l[k]] = l.drop k from by
            rw [List.drop_eq_getElem_cons hkl, hldk1]]
          exact List.take_append_drop k l
        have h2 : Abs st (ids.take k ++ [ids[k]]) (l.take k ++ [l[k]]) := by
          rw [hidseq, hlseq]; exact h
        obtain ⟨habs, hret⟩ := popBack_abs_snoc h2
        refine ⟨(popBack st).1, ?_, ?_, ?_⟩
        · have hrm : remove st value eqFn = some (popBack st) := by
            simp only [remove, hgnbv, if_neg hcond1, if_pos hcond2]
          rw [hrm, ← hret]
        · show Models _ (l.take k ++ l.drop (k + 1))
          rw [hldk1, List.append_nil]
          exact ⟨_, habs⟩
        · have h1 := habs.sizeEq
          have h2' := h.sizeEq
          rw [h1, h2']
          rw [show (ids.take k).length = k from by rw [List.length_take]; omega]
          omega
      · -- interior splice
        have hk1 : 1 ≤ k := by omega
        have hkp1 : k + 1 < ids.length := by omega
        have hcond2 : ¬(st.tail = some ids[k]) := by
          rw [htailL]
          intro he
          simp only [Option.some.injEq] at he
          rw [List.Nodup.getElem_inj_iff h.nodup] at he
          omega
        have hval := h.toAbsCore.valid
        have hnd := h.nodup
        have hKm1 : k - 1 < ids.length := by omega
        have hsplit : ids.take k ++ ids.drop k = ids := List.take_append_drop k ids
        have hdropc : ids.drop k = ids[k] :: ids.drop (k + 1) :=
          List.drop_eq_getElem_cons hk
        have hdropc2 : ids.drop (k + 1) = ids[k + 1] :: ids.drop (k + 2) :=
          List.drop_eq_getElem_cons hkp1
        have htakec : ids.take k = ids.take (k - 1) ++ [ids[k - 1]] := by
          conv_lhs => rw [show k = (k - 1) + 1 from by omega]
          rw [List.take_succ, List.getElem?_eq_getElem hKm1]
          rfl
        have hch : chainSeg st.nodes none (ids.take k ++ ids.drop k) none := by
          rw [hsplit]; exact h.chain
        rw [chainSeg_append] at hch
        obtain ⟨hcA, hcB⟩ := hch
        have hcB2 := hcB
        rw [hdropc] at hcB2
        obtain ⟨hbnid, hprevNid, hnextNid, hcB3⟩ := hcB2
        have hcB3b := hcB3
        rw [hdropc2] at hcB3b
        obtain ⟨hbnx, hprevNx, hnextNx, hcB4⟩ := hcB3b
        have hlastTake : lastOr (ids.take k) none = some ids[k - 1] := by
          rw [lastOr_none, htakec, List.getLast?_concat]
        have hPrevK : (getNode st.nodes ids[k]).prev = some ids[k - 1] := by
          rw [hprevNid, hlastTake]
        have hNextK : (getNode st.nodes ids[k]).next = some ids[k + 1] := by
          rw [hnextNid, hdropc2]
          rfl
        obtain ⟨hkl2, hdataK⟩ := data_at_spine h hk
        have hcA2 : chainSeg st.nodes none (ids.take (k - 1) ++ [ids[k - 1]])
            (headOr (ids.drop k) none) := by rw [← htakec]; exact hcA
        rw [chainSeg_append] at hcA2
        obtain ⟨hcA1, hcP⟩ := hcA2
        obtain ⟨hbpid, hprevPid, hnextPid, -⟩ := hcP
        -- distinctness
        have hne1 : ids[k - 1] ≠ ids[k] := by
          intro he
          rw [List.Nodup.getElem_inj_iff hnd] at he
          omega
        have hne2 : ids[k] ≠ ids[k + 1] := by
          intro he
          rw [List.Nodup.getElem_inj_iff hnd] at he
          omega
        have hne3 : ids[k - 1] ≠ ids[k + 1] := by
          intro he
          rw [List.Nodup.getElem_inj_iff hnd] at he
          omega
        have hndsplit := hnd
        rw [← hsplit, List.nodup_append] at hndsplit
        obtain ⟨hndT, hndD, hdisj⟩ := hndsplit
        have hpidT : ids[k - 1] ∈ ids.take k := by
          rw [htakec]
          exact List.mem_append_right _ (List.mem_singleton_self _)
        have hnidD : ids[k] ∈ ids.drop k := by
          rw [hdropc]
          exact List.mem_cons_self _ _
        have hnxD : ids[k + 1] ∈ ids.drop k := by
          rw [hdropc, hdropc2]
          exact List.mem_cons_of_mem _ (List.mem_cons_self _ _)
        have hpidTm1 : ids[k - 1] ∉ ids.take (k - 1) := by
          have := hndT
          rw [htakec, List.nodup_append] at this
          intro hm
          exact this.2.2 hm (by simp)
        have hnidDp1 : ids[k] ∉ ids.drop (k + 1) := by
          have := hndD
          rw [hdropc, List.nodup_cons] at this
          exact this.1
        have hnxDp2 : ids[k + 1] ∉ ids.drop (k + 2) := by
          have := hndD
          rw [hdropc, List.nodup_cons, hdropc2, List.nodup_cons] at this
          exact this.2.1
        have hvalT : ∀ j ∈ ids.take k, j < st.nodes.length :=
          fun j hj => hval j (List.take_subset _ _ hj)
        have hbK : ids[k] < st.nodes.length := hval _ (List.getElem_mem hk)
        have hbKm1 : ids[k - 1] < st.nodes.length := hval _ (List.getElem_mem hKm1)
        have hbKp1 : ids[k + 1] < st.nodes.length := hval _ (List.getElem_mem hkp1)
        -- the new arena
        have hlen3 : (((st.nodes.set ids[k] dflt).set ids[k - 1] { getNode (st.nodes.set ids[k] dflt) ids[k - 1] with next := some ids[k + 1] }).set ids[k + 1] { getNode ((st.nodes.set ids[k] dflt).set ids[k - 1] { getNode (st.nodes.set ids[k] dflt) ids[k - 1] with next := some ids[k + 1] }) ids[k + 1] with prev := some ids[k - 1] }).length = st.nodes.length := by simp
        have hgPid : getNode (((st.nodes.set ids[k] dflt).set ids[k - 1] { getNode (st.nodes.set ids[k] dflt) ids[k - 1] with next := some ids[k + 1] }).set ids[k + 1] { getNode ((st.nodes.set ids[k] dflt).set ids[k - 1] { getNode (st.nodes.set ids[k] dflt) ids[k - 1] with next := some ids[k + 1] }) ids[k + 1] with prev := some ids[k - 1] }) ids[k - 1] =
            { getNode st.nodes ids[k - 1] with next := some ids[k + 1] } := by
          rw [getNode_set_ne (fun he => hne3 he.symm), getNode_set_self (by simp [hbKm1]),
            getNode_set_ne (fun he => hne1 he.symm)]
        have hgNx : getNode (((st.nodes.set ids[k] dflt).set ids[k - 1] { getNode (st.nodes.set ids[k] dflt) ids[k - 1] with next := some ids[k + 1] }).set ids[k + 1] { getNode ((st.nodes.set ids[k] dflt).set ids[k - 1] { getNode (st.nodes.set ids[k] dflt) ids[k - 1] with next := some ids[k + 1] }) ids[k + 1] with prev := some ids[k - 1] }) ids[k + 1] =
            { getNode st.nodes ids[k + 1] with prev := some ids[k - 1] } := by
          rw [getNode_set_self (by simp [hbKp1]),
            getNode_set_ne hne3, getNode_set_ne hne2]
        have hgOther : ∀ j, j ∈ ids → j ≠ ids[k - 1] → j ≠ ids[k] → j ≠ ids[k + 1] →
            getNode (((st.nodes.set ids[k] dflt).set ids[k - 1] { getNode (st.nodes.set ids[k] dflt) ids[k - 1] with next := some ids[k + 1] }).set ids[k + 1] { getNode ((st.nodes.set ids[k] dflt).set ids[k - 1] { getNode (st.nodes.set ids[k] dflt) ids[k - 1] with next := some ids[k + 1] }) ids[k + 1] with prev := some ids[k - 1] }) j = getNode st.nodes j := by
          intro j hj hj1 hj2 hj3
          rw [getNode_set_ne (fun he => hj3 he.symm),
            getNode_set_ne (fun he => hj1 he.symm),
            getNode_set_ne (fun he => hj2 he.symm)]
        have hrm : remove st value eqFn =
            some (⟨(((st.nodes.set ids[k] dflt).set ids[k - 1] { getNode (st.nodes.set ids[k] dflt) ids[k - 1] with next := some ids[k + 1] }).set ids[k + 1] { getNode ((st.nodes.set ids[k] dflt).set ids[k - 1] { getNode (st.nodes.set ids[k] dflt) ids[k - 1] with next := some ids[k + 1] }) ids[k + 1] with prev := some ids[k - 1] }), st.head, st.tail, st.size - 1⟩, some l[k]) := by
          simp only [remove, hgnbv, if_neg hcond1, if_neg hcond2, hPrevK, hNextK, hdataK]
        refine ⟨_, hrm, ⟨ids.take k ++ ids.drop (k + 1), ⟨?_, ?_, ?_, ?_, ?_⟩, ?_⟩, rfl⟩
        · -- chain
          rw [chainSeg_append, hdropc2]
          constructor
          · rw [htakec, chainSeg_append]
            constructor
            · refine chainSeg_congr hcA1 ?_
              intro j hj
              have hjT : j ∈ ids.take k := by
                rw [htakec]
                exact List.mem_append_left _ hj
              refine ⟨?_, by rw [hlen3]; exact hvalT j hjT⟩
              refine hgOther j (List.take_subset _ _ hjT)
                (fun he => hpidTm1 (he ▸ hj))
                (fun he => hdisj hjT (he ▸ hnidD))
                (fun he => hdisj hjT (he ▸ hnxD))
            · refine ⟨by rw [hlen3]; exact hbKm1, ?_, ?_, trivial⟩
              · rw [hgPid]; exact hprevPid
              · rw [hgPid]; rfl
          · refine ⟨by rw [hlen3]; exact hbKp1, ?_, ?_, ?_⟩
            · rw [hgNx]
              show some ids[k - 1] = lastOr (ids.take k) none
              rw [hlastTake]
            · rw [hgNx]
              show (getNode st.nodes ids[k + 1]).next = _
              rw [hnextNx]
            · refine chainSeg_congr hcB4 ?_
              intro j hj
              have hjD1 : j ∈ ids.drop (k + 1) := by
                rw [hdropc2]
                exact List.mem_cons_of_mem _ hj
              have hjD : j ∈ ids.drop k := by
                rw [hdropc]
                exact List.mem_cons_of_mem _ hjD1
              refine ⟨?_, by rw [hlen3]; exact hval j (List.drop_subset _ _ hjD)⟩
              refine hgOther j (List.drop_subset _ _ hjD)
                (fun he => hdisj hpidT (he ▸ hjD))
                (fun he => hnidDp1 (he ▸ hjD1))
                (fun he => hnxDp2 (he ▸ hj))
        · -- nodup
          have := hnd
          rw [← hsplit, hdropc, List.nodup_append, List.nodup_cons] at this
          rw [List.nodup_append]
          refine ⟨this.1, this.2.1.2, ?_⟩
          intro a ha ha'
          exact this.2.2 ha (List.mem_cons_of_mem _ ha')
        · -- head
          have htkne : ids.take k ≠ [] := by
            intro he
            have := congrArg List.length he
            rw [List.length_take] at this
            simp only [List.length_nil] at this
            omega
          show st.head = _
          rw [head?_append_ne_nil htkne, h.headEq]
          conv_lhs => rw [← hsplit]
          rw [head?_append_ne_nil htkne]
        · -- tail
          have hdrne : ids.drop (k + 1) ≠ [] := by
            intro he
            have := congrArg List.length he
            rw [List.length_drop] at this
            simp only [List.length_nil] at this
            omega
          show st.tail = _
          rw [getLast?_append_ne_nil hdrne, h.tailEq]
          conv_lhs => rw [← hsplit]
          rw [getLast?_append_ne_nil (by
            intro he
            have := congrArg List.length he
            rw [List.length_drop] at this
            simp only [List.length_nil] at this
            omega), hdropc, getLast?_cons_of_ne_nil hdrne]
        · -- data
          rw [List.map_append, List.map_append]
          have hT : (ids.take k).map (fun i => (getNode (((st.nodes.set ids[k] dflt).set ids[k - 1] { getNode (st.nodes.set ids[k] dflt) ids[k - 1] with next := some ids[k + 1] }).set ids[k + 1] { getNode ((st.nodes.set ids[k] dflt).set ids[k - 1] { getNode (st.nodes.set ids[k] dflt) ids[k - 1] with next := some ids[k + 1] }) ids[k + 1] with prev := some ids[k - 1] }) i).data) =
              (l.take k).map some := by
            have hT0 : (ids.take k).map (fun i => (getNode st.nodes i).data) =
                (l.take k).map some := by
              rw [List.map_take, List.map_take, h.dataEq]
            refine map_data_eq hT0 ?_
            intro j hj
            by_cases hje : j = ids[k - 1]
            · subst hje; rw [hgPid]
            · rw [hgOther j (List.take_subset _ _ hj) hje
                (fun he => hdisj hj (he ▸ hnidD))
                (fun he => hdisj hj (he ▸ hnxD))]
          have hD : (ids.drop (k + 1)).map (fun i => (getNode (((st.nodes.set ids[k] dflt).set ids[k - 1] { getNode (st.nodes.set ids[k] dflt) ids[k - 1] with next := some ids[k + 1] }).set ids[k + 1] { getNode ((st.nodes.set ids[k] dflt).set ids[k - 1] { getNode (st.nodes.set ids[k] dflt) ids[k - 1] with next := some ids[k + 1] }) ids[k + 1] with prev := some ids[k - 1] }) i).data) =
              (l.drop (k + 1)).map some := by
            have hD0 : (ids.drop (k + 1)).map (fun i => (getNode st.nodes i).data) =
                (l.drop (k + 1)).map some := by
              rw [List.map_drop, List.map_drop, h.dataEq]
            refine map_data_eq hD0 ?_
            intro j hj
            have hjD : j ∈ ids.drop k := by
              rw [hdropc]
              exact List.mem_cons_of_mem _ hj
            by_cases hje : j = ids[k + 1]
            · subst hje; rw [hgNx]
            · rw [hgOther j (List.drop_subset _ _ hjD)
                (fun he => hdisj hpidT (he ▸ hjD))
                (fun he => hnidDp1 (he ▸ hj)) hje]
          rw [hT, hD]
        · -- size
          show st.size - 1 = _
          have h1 := h.sizeEq
          have h2 : (ids.take k).length = k := by
            rw [List.length_take]
            omega
          simp only [List.length_append, List.length_drop, h2]
          rw [h1]
          push_cast
          omega

/-! ### `reverse` -/

theorem swapAll_length {α : Type} :
    ∀ (ids : List Nat) (nodes : List (DNode α)),
    (swapAll nodes ids).length = nodes.length := by
  intro ids
  induction ids with
  | nil => intro nodes; rfl
  | cons i rest ih => intro nodes; rw [swapAll, ih]; simp

theorem getNode_swapAll_not_mem {α : Type} :
    ∀ (ids : List Nat) (nodes : List (DNode α)) (j : Nat), j ∉ ids →
    getNode (swapAll nodes ids) j = getNode nodes j := by
  intro ids
  induction ids with
  | nil => intro nodes j _; rfl
  | cons i rest ih =>
    intro nodes j hj
    rw [swapAll, ih _ _ (fun hm => hj (List.mem_cons_of_mem _ hm)),
      getNode_set_ne (fun he => hj (by rw [← he]; exact List.mem_cons_self _ _))]

theorem getNode_swapAll_mem {α : Type} :
    ∀ (ids : List Nat) (nodes : List (DNode α)), ids.Nodup →
    (∀ i ∈ ids, i < nodes.length) → ∀ j ∈ ids,
    getNode (swapAll nodes ids) j =
      ⟨(getNode nodes j).next, (getNode nodes j).prev, (getNode nodes j).data⟩ := by
  intro ids
  induction ids with
  | nil => intro nodes _ _ j hj; cases hj
  | cons i rest ih =>
    intro nodes hnd hval j hj
    obtain ⟨hnotin, hnd'⟩ := List.nodup_cons.mp hnd
    rcases List.mem_cons.mp hj with he | hm
    · subst he
      rw [swapAll, getNode_swapAll_not_mem _ _ _ hnotin,
        getNode_set_self (hval j (List.mem_cons_self _ _))]
    · rw [swapAll, ih _ hnd' (fun a ha => by
        rw [List.length_set]; exact hval a (List.mem_cons_of_mem _ ha)) j hm,
        getNode_set_ne (fun he => hnotin (by rw [he]; exact hm))]

theorem revChainSeg_swap {α : Type} {nodes nodes2 : List (DNode α)} :
    ∀ {rids : List Nat} {nx pv : Option Nat}, revChainSeg nodes nx rids pv →
    (∀ j ∈ rids, getNode nodes2 j =
      ⟨(getNode nodes j).next, (getNode nodes j).prev, (getNode nodes j).data⟩ ∧
      j < nodes2.length) →
    chainSeg nodes2 nx rids pv := by
  intro rids
  induction rids with
  | nil => intro _ _ _ _; trivial
  | cons i rest ih =>
    intro nx pv hc hcong
    obtain ⟨h1, h2, h3, h4⟩ := hc
    obtain ⟨hg, hb⟩ := hcong i (List.mem_cons_self _ _)
    refine ⟨hb, ?_, ?_, ih h4 (fun j hj => hcong j (List.mem_cons_of_mem _ hj))⟩
    · rw [hg]; exact h2
    · rw [hg]; exact h3

theorem revLoop_spec {α : Type} :
    ∀ {ids : List Nat} (nodes : List (DNode α)) {pv : Option Nat} {fuel : Nat},
    chainSeg nodes pv ids none → ids.Nodup → ids.length ≤ fuel →
    ∀ (p : Option Nat),
    revLoop nodes (headOr ids none) p fuel = (swapAll nodes ids, lastOr ids p) := by
  intro ids
  induction ids with
  | nil => intro nodes _ fuel _ _ _ p; cases fuel <;> rfl
  | cons i rest ih =>
    intro nodes pv fuel hc hnd hf p
    obtain ⟨hb, -, hnext, hrest⟩ := hc
    obtain ⟨hnotin, hnd'⟩ := List.nodup_cons.mp hnd
    have hf2 : rest.length + 1 ≤ fuel := by simpa using hf
    obtain ⟨f, rfl⟩ : ∃ f, fuel = f + 1 := ⟨fuel - 1, by omega⟩
    show revLoop nodes (some i) p (f + 1) = _
    rw [revLoop]
    nth_rewrite 2 [hnext]
    have hrest2 : chainSeg (nodes.set i
        ⟨(getNode nodes i).next, (getNode nodes i).prev, (getNode nodes i).data⟩)
        (some i) rest none := by
      refine chainSeg_congr hrest ?_
      intro j hj
      refine ⟨getNode_set_ne (fun he => hnotin (he ▸ hj)), ?_⟩
      rw [List.length_set]
      exact chainSeg_valid hrest j hj
    rw [ih _ hrest2 hnd' (show rest.length ≤ f from by omega) (some i)]
    rw [swapAll, lastOr_cons]

theorem reverse_abs {α : Type} {st : DequeImpl α} {ids : List Nat} {l : List α}
    (h : Abs st ids l) : Abs (reverse st) ids.reverse l.reverse := by
  have hval := h.toAbsCore.valid
  have hres : revLoop st.nodes st.head none (st.nodes.length + 1) =
      (swapAll st.nodes ids, lastOr ids none) := by
    rw [show st.head = headOr ids none from by rw [h.headEq, headOr_none]]
    exact revLoop_spec st.nodes h.chain h.nodup
      (Nat.le_succ_of_le h.toAbsCore.len_le) none
  have hrev : reverse st =
      ⟨swapAll st.nodes ids, lastOr ids none, st.head, st.size⟩ := by
    simp only [reverse, hres]
  rw [hrev]
  have hswapmem : ∀ j ∈ ids, getNode (swapAll st.nodes ids) j =
      ⟨(getNode st.nodes j).next, (getNode st.nodes j).prev,
        (getNode st.nodes j).data⟩ :=
    getNode_swapAll_mem ids st.nodes h.nodup hval
  refine ⟨⟨?_, ?_, ?_, ?_, ?_⟩, ?_⟩
  · refine revChainSeg_swap (chainSeg_reverse h.chain) ?_
    intro j hj
    rw [List.mem_reverse] at hj
    exact ⟨hswapmem j hj, by rw [swapAll_length]; exact hval j hj⟩
  · exact List.nodup_reverse.mpr h.nodup
  · show lastOr ids none = _
    rw [lastOr_none, ← List.head?_reverse]
  · show st.head = _
    rw [h.headEq, ← List.getLast?_reverse]
  · show ids.reverse.map _ = _
    have : ids.reverse.map (fun i => (getNode (swapAll st.nodes ids) i).data) =
        ids.reverse.map (fun i => (getNode st.nodes i).data) := by
      refine List.map_congr_left ?_
      intro j hj
      rw [List.mem_reverse] at hj
      rw [hswapmem j hj]
    rw [this, List.map_reverse, List.map_reverse, h.dataEq]
  · show st.size = _
    rw [h.sizeEq, List.length_reverse]

/-! ### `copy` -/

theorem abs_empty {α : Type} : Abs (emptyDeque : DequeImpl α) [] [] :=
  ⟨⟨trivial, List.nodup_nil, rfl, rfl, rfl⟩, rfl⟩

theorem copyLoop_abs {α : Type} {nodes : List (DNode α)} :
    ∀ {ids : List Nat} {l : List α} {pv : Option Nat} {fuel : Nat},
    chainSeg nodes pv ids none →
    ids.map (fun i => (getNode nodes i).data) = l.map some →
    ids.length ≤ fuel →
    ∀ {acc : DequeImpl α} {aids : List Nat} {al : List α}, Abs acc aids al →
    ∃ aids', Abs (copyLoop nodes (headOr ids none) acc fuel) aids' (al ++ l) := by
  intro ids
  induction ids with
  | nil =>
    intro l pv fuel hc hdt hf acc aids al hacc
    have hl : l = [] := by
      simp only [List.map_nil] at hdt
      exact List.map_eq_nil_iff.mp hdt.symm
    subst hl
    refine ⟨aids, ?_⟩
    show Abs (copyLoop nodes none acc fuel) aids (al ++ [])
    have he : copyLoop nodes none acc fuel = acc := by cases fuel <;> rfl
    rw [he, List.append_nil]
    exact hacc
  | cons i rest ih =>
    intro l pv fuel hc hdt hf acc aids al hacc
    obtain ⟨-, -, hnext, hrest⟩ := hc
    cases l with
    | nil => exact absurd (congrArg List.length hdt) (by simp)
    | cons x l' =>
      simp only [List.map_cons, List.cons.injEq] at hdt
      obtain ⟨hdx, hdrest⟩ := hdt
      have hf2 : rest.length + 1 ≤ fuel := by simpa using hf
      obtain ⟨f, rfl⟩ : ∃ f, fuel = f + 1 := ⟨fuel - 1, by omega⟩
      show ∃ aids', Abs (copyLoop nodes (some i) acc (f + 1)) aids' (al ++ x :: l')
      rw [copyLoop, hnext, hdx]
      obtain ⟨habs, -⟩ := pushBack_abs hacc x
      obtain ⟨aids', habs'⟩ := ih hrest hdrest (show rest.length ≤ f from by omega) habs
      exact ⟨aids', by rw [List.append_cons]; exact habs'⟩

theorem copy_models {α : Type} {st : DequeImpl α} {ids : List Nat} {l : List α}
    (h : Abs st ids l) : Models (copy st) l := by
  rw [copy, show st.head = headOr ids none from by rw [h.headEq, headOr_none]]
  obtain ⟨aids', habs⟩ := copyLoop_abs h.chain h.dataEq
    (Nat.le_succ_of_le h.toAbsCore.len_le) abs_empty
  rw [List.nil_append] at habs
  exact ⟨aids', habs⟩

/-! ### `createFromArray` and `clear` -/

theorem AbsCore.size_set {α : Type} {st : DequeImpl α} {ids : List Nat}
    {l : List α} (h : AbsCore st ids l) (z : Int) :
    AbsCore { st with size := z } ids l :=
  ⟨h.chain, h.nodup, h.headEq, h.tailEq, h.dataEq⟩

theorem cfaLoop_abs {α : Type} :
    ∀ (rest : List α) {st : DequeImpl α} {ids : List Nat} {l : List α},
    AbsCore st ids l → ids ≠ [] →
    ∃ ids', AbsCore (cfaLoop st rest) ids' (l ++ rest) ∧
      ids'.length = ids.length + rest.length := by
  intro rest
  induction rest with
  | nil =>
    intro st ids l h _
    exact ⟨ids, by rw [cfaLoop, List.append_nil]; exact h, by simp⟩
  | cons v rest' ih =>
    intro st ids l h hne
    obtain ⟨t, ht⟩ : ∃ t, st.tail = some t := by
      rw [h.tailEq]
      cases hg : ids.getLast? with
      | none => rw [List.getLast?_eq_none_iff] at hg; exact absurd hg hne
      | some t => exact ⟨t, rfl⟩
    obtain ⟨h0, hh⟩ : ∃ x, st.head = some x := by
      rw [h.headEq]
      cases ids with
      | nil => exact absurd rfl hne
      | cons a as => exact ⟨a, rfl⟩
    have hstep : cfaLoop st (v :: rest') =
        cfaLoop { (pushBackD st (some v)).1 with size := st.size } rest' := by
      simp only [cfaLoop, pushBackD, ht, hh]
    rw [hstep]
    have hcore : AbsCore { (pushBackD st (some v)).1 with size := st.size }
        (ids ++ [st.nodes.length]) (l ++ [v]) :=
      (pushBackD_core h v).size_set st.size
    obtain ⟨ids', hc', hlen'⟩ := ih hcore (by simp)
    refine ⟨ids', ?_, ?_⟩
    · rw [List.append_cons]
      exact hc'
    · rw [hlen']
      simp
      omega

theorem createFromArray_models {α : Type} (initData : List α) :
    Models (createFromArray initData) initData := by
  cases initData with
  | nil => exact ⟨[], abs_empty⟩
  | cons v rest =>
    have hcore0 : AbsCore (⟨[⟨none, none, some v⟩], some 0, some 0, 0⟩ : DequeImpl α)
        [0] [v] := by
      refine ⟨⟨by simp, rfl, rfl, trivial⟩, by simp, rfl, rfl, rfl⟩
    obtain ⟨ids', hcore1, hlen⟩ := cfaLoop_abs rest hcore0 (by simp)
    refine ⟨ids', ⟨hcore1.size_set _, ?_⟩⟩
    show ((v :: rest).length : Int) = _
    rw [hlen]
    simp only [List.length_cons, List.length_nil]
    push_cast
    omega

theorem clear_abs {α : Type} (st : DequeImpl α) : Abs (clear st) [] [] :=
  ⟨⟨trivial, List.nodup_nil, rfl, rfl, rfl⟩, rfl⟩

/-! ### Combined `insert` specification and reachability -/

theorem pushFront_eq_pushBack_empty {α : Type} {st : DequeImpl α}
    (hh : st.head = none) (ht : st.tail = none) (v : α) :
    pushFront st v = pushBack st v := by
  simp only [pushFront, pushBack, pushBackD, hh, ht]

theorem insert_spec {α : Type} {st : DequeImpl α} {ids : List Nat} {l : List α}
    (h : Abs st ids l) (index : Int) (v : α) :
    (index ≤ 0 → insert st index v = some (pushFront st v)) ∧
    (st.size ≤ index → insert st index v = some (pushBack st v)) ∧
    (0 < index → index < st.size → ∃ st', insert st index v = some (st', st.size + 1) ∧
      Abs st' (ids.take index.toNat ++ st.nodes.length :: ids.drop index.toNat)
        (l.take index.toNat ++ v :: l.drop index.toNat)) := by
  refine ⟨?_, ?_, ?_⟩
  · intro h0
    rw [insert, if_pos h0]
  · intro hge
    by_cases h0 : index ≤ 0
    · have hsz : st.size = 0 := by
        have := h.sizeEq
        have hnn : (0 : Int) ≤ st.size := by rw [this]; positivity
        omega
      have hids : ids = [] := by
        have := h.sizeEq
        rw [hsz] at this
        have : ids.length = 0 := by omega
        exact List.length_eq_zero.mp this
      have hh : st.head = none := by rw [h.headEq, hids]; rfl
      have ht : st.tail = none := by rw [h.tailEq, hids]; rfl
      rw [insert, if_pos h0, pushFront_eq_pushBack_empty hh ht]
    · rw [insert, if_neg h0, if_pos (by omega)]
  · intro h0 hlt
    obtain ⟨st', hins, habs⟩ := insert_abs_mid h v h0 hlt
    exact ⟨st', hins, habs⟩

theorem insert_isSome {α : Type} {st : DequeImpl α} (h : WF st)
    (index : Int) (v : α) : (insert st index v).isSome := by
  obtain ⟨l, ids, habs⟩ := h
  obtain ⟨h1, h2, h3⟩ := insert_spec habs index v
  by_cases hc1 : index ≤ 0
  · rw [h1 hc1]; rfl
  · by_cases hc2 : st.size ≤ index
    · rw [h2 hc2]; rfl
    · obtain ⟨st', hins, -⟩ := h3 (by omega) (by omega)
      rw [hins]; rfl

theorem popBack_abs_ne_nil {α : Type} {st : DequeImpl α} {ids : List Nat}
    {l : List α} (h : Abs st ids l) (hne : ids ≠ []) :
    ∃ lf x, l = lf ++ [x] ∧ Abs (popBack st).1 ids.dropLast lf ∧
      (popBack st).2 = some x := by
  have hlne : l ≠ [] := by
    intro he
    subst he
    have := h.toAbsCore.len_eq
    simp only [List.length_nil] at this
    exact hne (List.length_eq_zero.mp this)
  have hids : ids.dropLast ++ [ids.getLast hne] = ids :=
    List.dropLast_append_getLast hne
  have hls : l.dropLast ++ [l.getLast hlne] = l :=
    List.dropLast_append_getLast hlne
  have h2 : Abs st (ids.dropLast ++ [ids.getLast hne])
      (l.dropLast ++ [l.getLast hlne]) := by
    rw [hids, hls]; exact h
  obtain ⟨habs, hret⟩ := popBack_abs_snoc h2
  exact ⟨l.dropLast, l.getLast hlne, hls.symm, habs, hret⟩

theorem reachable_wf {α : Type} {st : DequeImpl α} (h : Reachable st) : WF st := by
  induction h with
  | init initData => exact ⟨initData, createFromArray_models initData⟩
  | pushFront st v _ ih =>
    obtain ⟨l, ids, habs⟩ := ih
    exact ⟨v :: l, _, (pushFront_abs habs v).1⟩
  | pushBack st v _ ih =>
    obtain ⟨l, ids, habs⟩ := ih
    exact ⟨l ++ [v], _, (pushBack_abs habs v).1⟩
  | popFront st _ ih =>
    obtain ⟨l, ids, habs⟩ := ih
    cases hids : ids with
    | nil =>
      subst hids
      have hh : st.head = none := by simpa using habs.headEq
      rw [popFront_empty hh]
      exact ⟨l, [], habs⟩
    | cons i rest =>
      subst hids
      cases l with
      | nil => exact absurd habs.toAbsCore.len_eq (by simp)
      | cons x l' => exact ⟨l', rest, (popFront_abs_cons habs).1⟩
  | popBack st _ ih =>
    obtain ⟨l, ids, habs⟩ := ih
    cases hids : ids with
    | nil =>
      subst hids
      have ht : st.tail = none := by simpa using habs.tailEq
      rw [popBack_empty ht]
      exact ⟨l, [], habs⟩
    | cons i rest =>
      subst hids
      obtain ⟨lf, x, -, habs', -⟩ := popBack_abs_ne_nil habs (by simp)
      exact ⟨lf, _, habs'⟩
  | insert st i v r _ hins ih =>
    obtain ⟨l, ids, habs⟩ := ih
    obtain ⟨h1, h2, h3⟩ := insert_spec habs i v
    by_cases hc1 : i ≤ 0
    · rw [h1 hc1] at hins
      obtain rfl : r = pushFront st v := by injection hins with he; exact he.symm ▸ rfl
      exact ⟨v :: l, _, (pushFront_abs habs v).1⟩
    · by_cases hc2 : st.size ≤ i
      · rw [h2 hc2] at hins
        obtain rfl : r = pushBack st v := by injection hins with he; exact he.symm ▸ rfl
        exact ⟨l ++ [v], _, (pushBack_abs habs v).1⟩
      · obtain ⟨st', hins', habs'⟩ := h3 (by omega) (by omega)
        rw [hins'] at hins
        have : r = (st', st.size + 1) := by injection hins with he; exact he.symm ▸ rfl
        rw [this]
        exact ⟨_, _, habs'⟩
  | remove st v eqFn r _ hrem ih =>
    obtain ⟨l, ids, habs⟩ := ih
    have hspec := remove_spec habs v eqFn
    cases hfi : firstIdxP (fun y => eqFn y v) l with
    | none =>
      rw [hfi] at hspec
      rw [hspec] at hrem
      have : r = (st, none) := by injection hrem with he; exact he.symm ▸ rfl
      rw [this]
      exact ⟨l, ids, habs⟩
    | some k =>
      rw [hfi] at hspec
      obtain ⟨hkl, st', hrm, hmod, -⟩ := hspec
      rw [hrm] at hrem
      have : r = (st', some l[k]) := by injection hrem with he; exact he.symm ▸ rfl
      rw [this]
      obtain ⟨ids', habs'⟩ := hmod
      exact ⟨_, ids', habs'⟩
  | clear st _ _ => exact ⟨[], [], clear_abs st⟩
  | reverse st _ ih =>
    obtain ⟨l, ids, habs⟩ := ih
    exact ⟨l.reverse, ids.reverse, reverse_abs habs⟩
  | copy st _ ih =>
    obtain ⟨l, ids, habs⟩ := ih
    obtain ⟨ids', habs'⟩ := copy_models habs
    exact ⟨l, ids', habs'⟩

/-! ### The spec invariant -/

theorem chainSeg_chain' {α : Type} {nodes : List (DNode α)} :
    ∀ {ids : List Nat} {pv : Option Nat}, chainSeg nodes pv ids none →
    List.Chain' (fun a b => (getNode nodes a).next = some b ∧
      (getNode nodes b).prev = some a) ids := by
  intro ids
  induction ids with
  | nil => intro _ _; trivial
  | cons i rest ih =>
    intro pv hc
    obtain ⟨-, -, hnext, hrest⟩ := hc
    cases rest with
    | nil => exact List.chain'_singleton i
    | cons j rest' =>
      rw [List.chain'_cons]
      exact ⟨⟨hnext, hrest.2.1⟩, ih hrest⟩

theorem wf_invariant {α : Type} {st : DequeImpl α} (h : WF st) : Invariant st := by
  obtain ⟨l, ids, habs⟩ := h
  have hsz := habs.sizeEq
  have hhd := habs.headEq
  have htl := habs.tailEq
  refine ⟨?_, ?_, ?_, ?_⟩
  · constructor
    · intro h0
      have : ids.length = 0 := by omega
      rw [hhd, List.length_eq_zero.mp this]
      rfl
    · intro h0
      rw [hhd, List.head?_eq_none_iff] at h0
      rw [hsz, h0]
      rfl
  · constructor
    · intro h0
      have : ids.length = 0 := by omega
      rw [htl, List.length_eq_zero.mp this]
      rfl
    · intro h0
      rw [htl, List.getLast?_eq_none_iff] at h0
      rw [hsz, h0]
      rfl
  · intro h1
    have : ids.length = 1 := by omega
    obtain ⟨a, rfl⟩ := List.length_eq_one.mp this
    obtain ⟨-, hprev, hnext, -⟩ := habs.chain
    have hh : st.head = some a := by rw [hhd]; rfl
    have ht : st.tail = some a := by rw [htl]; rfl
    refine ⟨by rw [hh, ht], ?_⟩
    rw [hh]
    exact ⟨hprev, hnext⟩
  · intro h1
    have hlen : 1 < ids.length := by omega
    have hne : ids ≠ [] := by
      intro he
      rw [he] at hlen
      simp at hlen
    refine ⟨?_, ?_, ?_⟩
    · cases hids : ids with
      | nil => exact absurd hids hne
      | cons i rest =>
        have hh : st.head = some i := by rw [hhd, hids]; rfl
        rw [hh]
        have := habs.chain
        rw [hids] at this
        exact this.2.1
    · have hids := (List.dropLast_append_getLast hne).symm
      have hch : chainSeg st.nodes none (ids.dropLast ++ [ids.getLast hne]) none := by
        rw [← hids]; exact habs.chain
      rw [chainSeg_append] at hch
      obtain ⟨-, -, hnextLast, -⟩ := hch.2
      have ht : st.tail = some (ids.getLast hne) := by
        rw [htl]
        conv_lhs => rw [hids]
        rw [List.getLast?_concat]
      rw [ht]
      exact hnextLast
    · have hwalk : walkIds st.nodes st.head (st.nodes.length + 1) = ids := by
        rw [show st.head = headOr ids none from by rw [hhd, headOr_none]]
        exact walkIds_spec habs.chain (Nat.le_succ_of_le habs.toAbsCore.len_le)
      refine ⟨by rw [hwalk, hsz], by rw [hwalk, htl], ?_⟩
      rw [hwalk]
      exact chainSeg_chain' habs.chain

/-! ### Claim theorems -/

/-- C1: After every public operation (construction, pushFront, pushBack,
popFront, popBack, enqueue, dequeue, push, pop, insert, remove, clear,
reverse, copy) returns, the deque satisfies the structural invariant:
`size == 0` iff `head` is null iff `tail` is null; a single node is both
head and tail with null links; for larger deques `head.prev` and
`tail.next` are null, the `next` walk from the head covers exactly `size`
nodes ending at the tail, and adjacent nodes point back at each other. -/
theorem claim_c1_invariant {α : Type} (st : DequeImpl α) (h : Reachable st) :
    Invariant st :=
  wf_invariant (reachable_wf h)

theorem claim_c1_invariant_witness :
    Invariant (createFromArray [1, 2, 3]) :=
  claim_c1_invariant (createFromArray [1, 2, 3]) (Reachable.init [1, 2, 3])

/-- C2: `new Deque(...S)` and `Deque.fromArray(S)` append the values of `S`
in order: the resulting deque represents `S` (first value at the head),
its size is `S.length`, `toArray()` returns exactly `S` (an empty array
for an empty deque), and the value at index 0 is the first value of `S`. -/
theorem claim_c2_construction {α : Type} (S : List α) :
    Models (createFromArray S) S ∧
    fromArray S = createFromArray S ∧
    (createFromArray S).size = (S.length : Int) ∧
    toArray (createFromArray S) = S.map some ∧
    get (createFromArray S) 0 = S.head? := by
  obtain ⟨ids, habs⟩ := createFromArray_models S
  refine ⟨⟨ids, habs⟩, rfl, ?_, toArray_abs habs, ?_⟩
  · rw [habs.sizeEq, habs.toAbsCore.len_eq]
  · cases S with
    | nil =>
      have hsz : (createFromArray ([] : List α)).size = 0 := by
        rw [habs.sizeEq, habs.toAbsCore.len_eq]
        rfl
      rw [(get_spec habs 0).2 (by omega)]
      rfl
    | cons x S' =>
      have hsz : 0 < (createFromArray (x :: S')).size := by
        rw [habs.sizeEq, habs.toAbsCore.len_eq]
        simp
      obtain ⟨hkl, he⟩ := (get_spec habs 0).1 (by omega) (by omega)
      rw [he]
      rfl

/-- C3: `get(index)` returns `undefined` outside `[0, size)` and the
`index`-th value in head-to-tail order inside the range; the node located
by `getNodeAtIndex` (which searches backward from the tail when
`index > size / 2`) is always the node a forward-only search from the head
finds, so the result is independent of the traversal direction. -/
theorem claim_c3_get {α : Type} (st : DequeImpl α) (l : List α)
    (h : Models st l) (index : Int) :
    (0 ≤ index → index < st.size →
      ∃ hkl : index.toNat < l.length, get st index = some l[index.toNat]) ∧
    ((index < 0 ∨ st.size ≤ index) → get st index = none) ∧
    getNodeAtIndex st index = getNodeAtIndexFwd st index := by
  obtain ⟨ids, habs⟩ := h
  exact ⟨(get_spec habs index).1, (get_spec habs index).2,
    getNodeAtIndex_eq_fwd ⟨ids, habs⟩ index⟩

theorem claim_c3_get_witness :
    get (createFromArray [5, 6, 7]) 2 = some 7 ∧
    get (createFromArray [5, 6, 7]) 3 = none ∧
    getNodeAtIndex (createFromArray [5, 6, 7]) 2 =
      getNodeAtIndexFwd (createFromArray [5, 6, 7]) 2 := by
  have h := claim_c3_get (createFromArray [5, 6, 7]) [5, 6, 7]
    (createFromArray_models [5, 6, 7])
  obtain ⟨hb2, he⟩ := (h 2).1 (by decide) (by decide)
  exact ⟨he, (h 3).2.1 (by decide), (h 2).2.2⟩

/-- C4: `insert(i, v)` clamps: for `i <= 0` it leaves the deque in exactly
the state `pushFront(v)` produces, for `i >= size` exactly the state
`pushBack(v)` produces (even for far out-of-range indices, without error);
for interior `0 < i < size` it splices the new value immediately before the
value at index `i`, so afterwards `get(i) == v` and the size grew by 1; in
every case it returns the new size. -/
theorem claim_c4_insert {α : Type} (st : DequeImpl α) (l : List α)
    (h : Models st l) (index : Int) (v : α) :
    (index ≤ 0 → insert st index v = some (pushFront st v)) ∧
    (st.size ≤ index → insert st index v = some (pushBack st v)) ∧
    (0 < index → index < st.size →
      ∃ st', insert st index v = some (st', st.size + 1) ∧
        Models st' (l.insertIdx index.toNat v) ∧
        get st' index = some v ∧ st'.size = st.size + 1) ∧
    (∀ r, insert st index v = some r →
      r.2 = st.size + 1 ∧ r.1.size = st.size + 1) := by
  obtain ⟨ids, habs⟩ := h
  obtain ⟨h1, h2, h3⟩ := insert_spec habs index v
  have hklen : 0 < index → index < st.size → index.toNat ≤ l.length := by
    intro h0 hlt
    have := habs.sizeEq
    have := habs.toAbsCore.len_eq
    omega
  refine ⟨h1, h2, ?_, ?_⟩
  · intro h0 hlt
    obtain ⟨st', hins, habs'⟩ := h3 h0 hlt
    have hins' : l.insertIdx index.toNat v =
        l.take index.toNat ++ v :: l.drop index.toNat :=
      insertIdx_eq_take_cons_drop index.toNat v l (hklen h0 hlt)
    refine ⟨st', hins, by rw [hins']; exact ⟨_, habs'⟩, ?_, ?_⟩
    · have hsz' : st'.size = st.size + 1 := by
        have hs0 := habs.sizeEq
        have hl0 := habs.toAbsCore.len_eq
        have h4 := congrArg List.length (List.take_append_drop index.toNat ids)
        simp only [List.length_append] at h4
        have hs1 := habs'.sizeEq
        simp only [List.length_append, List.length_cons] at hs1
        omega
      obtain ⟨hkl, hg⟩ := (get_spec habs' index).1 (by omega) (by omega)
      rw [hg]
      refine congrArg _ ?_
      have hlt' : (l.take index.toNat).length = index.toNat := by
        rw [List.length_take]
        have := hklen h0 hlt
        omega
      rw [List.getElem_append_right (by rw [hlt'])]
      simp [hlt']
    · have hs0 := habs.sizeEq
      have hl0 := habs.toAbsCore.len_eq
      have h4 := congrArg List.length (List.take_append_drop index.toNat ids)
      simp only [List.length_append] at h4
      have hs1 := habs'.sizeEq
      simp only [List.length_append, List.length_cons] at hs1
      omega
  · intro r hr
    by_cases hc1 : index ≤ 0
    · rw [h1 hc1] at hr
      obtain rfl : r = pushFront st v := by injection hr with he; exact he.symm ▸ rfl
      exact ⟨rfl, rfl⟩
    · by_cases hc2 : st.size ≤ index
      · rw [h2 hc2] at hr
        obtain rfl : r = pushBack st v := by injection hr with he; exact he.symm ▸ rfl
        exact ⟨rfl, rfl⟩
      · obtain ⟨st', hins, habs'⟩ := h3 (by omega) (by omega)
        rw [hins] at hr
        obtain rfl : r = (st', st.size + 1) := by
          injection hr with he; exact he.symm ▸ rfl
        refine ⟨rfl, ?_⟩
        show st'.size = st.size + 1
        have hs0 := habs.sizeEq
        have hl0 := habs.toAbsCore.len_eq
        have h4 := congrArg List.length (List.take_append_drop index.toNat ids)
        simp only [List.length_append] at h4
        have hs1 := habs'.sizeEq
        simp only [List.length_append, List.length_cons] at hs1
        omega

theorem claim_c4_insert_witness :
    insert (createFromArray [1, 2, 3]) (-7) 9 =
      some (pushFront (createFromArray [1, 2, 3]) 9) ∧
    insert (createFromArray [1, 2, 3]) 50 9 =
      some (pushBack (createFromArray [1, 2, 3]) 9) ∧
    ∃ st', insert (createFromArray [1, 2, 3]) 1 9 = some (st', 4) ∧
      get st' 1 = some 9 := by
  have h := claim_c4_insert (createFromArray [1, 2, 3]) [1, 2, 3]
    (createFromArray_models [1, 2, 3])
  refine ⟨(h (-7) 9).1 (by decide), (h 50 9).2.1 (by decide), ?_⟩
  obtain ⟨st', hins, -, hg, -⟩ := (h 1 9).2.2.1 (by decide) (by decide)
  exact ⟨st', hins, hg⟩

/-- C5: on any well-formed deque state, the interior branch of `insert`
always finds a node whose `prev` is non-null, so the two erased non-null
assertions never fail: `insert` never faults, for any integer index. -/
theorem claim_c5_insert_safe {α : Type} (st : DequeImpl α) (h : WF st)
    (index : Int) (v : α) : (insert st index v).isSome :=
  insert_isSome h index v

theorem claim_c5_insert_safe_witness :
    (insert (createFromArray [1, 2, 3]) 2 9).isSome :=
  claim_c5_insert_safe (createFromArray [1, 2, 3])
    ⟨[1, 2, 3], createFromArray_models [1, 2, 3]⟩ 2 9

/-- C6: `remove(v)` removes the first value matching `v` under the
equality function and returns it, decreasing the size by one and deleting
exactly that occurrence from the sequence; when nothing matches it returns
`undefined` and leaves the deque exactly unchanged. -/
theorem claim_c6_remove {α : Type} (st : DequeImpl α) (l : List α)
    (h : Models st l) (value : α) (eqFn : α → α → Bool) :
    (firstIdxP (fun y => eqFn y value) l = none →
      remove st value eqFn = some (st, none)) ∧
    (∀ k, firstIdxP (fun y => eqFn y value) l = some k →
      ∃ hkl : k < l.length, ∃ st',
        remove st value eqFn = some (st', some l[k]) ∧
        Models st' (l.eraseIdx k) ∧ st'.size = st.size - 1) := by
  obtain ⟨ids, habs⟩ := h
  have hspec := remove_spec habs value eqFn
  constructor
  · intro hnone
    rw [hnone] at hspec
    exact hspec
  · intro k hk
    rw [hk] at hspec
    obtain ⟨hkl, st', hrm, hmod, hsz⟩ := hspec
    refine ⟨hkl, st', hrm, ?_, hsz⟩
    rw [List.eraseIdx_eq_take_drop_succ]
    exact hmod

theorem claim_c6_remove_witness :
    remove (createFromArray [1, 2, 3]) 7 (· == ·) =
      some (createFromArray [1, 2, 3], none) ∧
    ∃ st', remove (createFromArray [1, 2, 3]) 2 (· == ·) = some (st', some 2) ∧
      Models st' [1, 3] := by
  have h := claim_c6_remove (createFromArray [1, 2, 3]) [1, 2, 3]
    (createFromArray_models [1, 2, 3])
  refine ⟨(h 7 (· == ·)).1 (by decide), ?_⟩
  obtain ⟨hb1, st', hrm, hmod, hsz⟩ := (h 2 (· == ·)).2 1 (by decide)
  exact ⟨st', hrm, hmod⟩

/-- C7: on an empty deque, `front()`, `back()`, `popFront()` and
`popBack()` all return `undefined` without faulting and leave the deque
unchanged: the size stays 0 and `head` and `tail` stay null. -/
theorem claim_c7_empty_ops {α : Type} (st : DequeImpl α)
    (h : Models st ([] : List α)) (isNull : α → Bool) :
    front isNull st = none ∧ back isNull st = none ∧
    popFront st = (st, none) ∧ popBack st = (st, none) ∧
    st.size = 0 ∧ st.head = none ∧ st.tail = none := by
  obtain ⟨ids, habs⟩ := h
  have hids : ids = [] := by
    have := habs.toAbsCore.len_eq
    simp only [List.length_nil] at this
    exact List.length_eq_zero.mp this
  subst hids
  have hh : st.head = none := by simpa using habs.headEq
  have ht : st.tail = none := by simpa using habs.tailEq
  have hs : st.size = 0 := by simpa using habs.sizeEq
  refine ⟨?_, ?_, popFront_empty hh, popBack_empty ht, hs, hh, ht⟩
  · unfold front
    rw [hh]
    rfl
  · unfold back
    rw [ht]
    rfl

theorem claim_c7_empty_ops_witness :
    front (fun _ => false) (createFromArray ([] : List Nat)) = none ∧
    popFront (createFromArray ([] : List Nat)) =
      (createFromArray ([] : List Nat), none) := by
  have h := claim_c7_empty_ops (createFromArray ([] : List Nat))
    (createFromArray_models []) (fun _ => false)
  exact ⟨h.1, h.2.2.1⟩

/-- C8: `reverse()` reverses the logical order in place: `toArray()` after
reversal is the reversal of `toArray()` before, and reversing twice
restores the original order. -/
theorem claim_c8_reverse {α : Type} (st : DequeImpl α) (l : List α)
    (h : Models st l) :
    Models (reverse st) l.reverse ∧
    toArray (reverse st) = (toArray st).reverse ∧
    toArray (reverse (reverse st)) = toArray st := by
  obtain ⟨ids, habs⟩ := h
  have habs' := reverse_abs habs
  have habs'' := reverse_abs habs'
  refine ⟨⟨_, habs'⟩, ?_, ?_⟩
  · rw [toArray_abs habs', toArray_abs habs, ← List.map_reverse]
  · rw [toArray_abs habs'', toArray_abs habs, List.reverse_reverse]

theorem claim_c8_reverse_witness :
    toArray (reverse (createFromArray [1, 2, 3])) =
      (toArray (createFromArray [1, 2, 3])).reverse ∧
    toArray (reverse (reverse (createFromArray [1, 2, 3]))) =
      toArray (createFromArray [1, 2, 3]) := by
  have h := claim_c8_reverse (createFromArray [1, 2, 3]) [1, 2, 3]
    (createFromArray_models [1, 2, 3])
  exact ⟨h.2.1, h.2.2⟩

/-- C9: `copy()` produces a new deque whose `toArray()` equals the
original's at the moment of copying, in the same order, built from freshly
allocated nodes (it represents the same value list through its own
arena), with the same size. -/
theorem claim_c9_copy {α : Type} (st : DequeImpl α) (l : List α)
    (h : Models st l) :
    Models (copy st) l ∧ toArray (copy st) = toArray st ∧
    (copy st).size = st.size := by
  obtain ⟨ids, habs⟩ := h
  obtain ⟨ids', habs'⟩ := copy_models habs
  refine ⟨⟨ids', habs'⟩, ?_, ?_⟩
  · rw [toArray_abs habs', toArray_abs habs]
  · rw [habs'.sizeEq, habs.sizeEq, habs'.toAbsCore.len_eq, habs.toAbsCore.len_eq]

theorem claim_c9_copy_witness :
    toArray (copy (createFromArray [1, 2, 3])) =
      toArray (createFromArray [1, 2, 3]) ∧
    (copy (createFromArray [1, 2, 3])).size =
      (createFromArray [1, 2, 3]).size := by
  have h := claim_c9_copy (createFromArray [1, 2, 3]) [1, 2, 3]
    (createFromArray_models [1, 2, 3])
  exact ⟨h.2.1, h.2.2⟩

/-- C10: when the stored value at the head is the JavaScript `null`
(modelled as `none` in the value type `Option Int`, with `Option.isNone` as
the null test), `front()` coerces it to `undefined` while `get(0)` and
`popFront()` return the stored `null` itself; symmetrically for `back()`,
`get(size-1)` and `popBack()` at the tail. -/
theorem claim_c10_null_coercion (st : DequeImpl (Option Int))
    (l : List (Option Int)) :
    (Models st (none :: l) →
      front Option.isNone st = none ∧ get st 0 = some none ∧
      (popFront st).2 = some none) ∧
    (Models st (l ++ [none]) →
      back Option.isNone st = none ∧ get st (st.size - 1) = some none ∧
      (popBack st).2 = some none) := by
  constructor
  · intro h
    obtain ⟨ids, habs⟩ := h
    have hlen : 0 < ids.length := by
      have := habs.toAbsCore.len_eq
      simp only [List.length_cons] at this
      omega
    have hh : st.head = some ids[0] := by
      rw [habs.headEq]
      exact head?_eq_getElem_zero hlen
    obtain ⟨hkl, hdata⟩ := data_at_spine habs hlen
    have hd0 : (getNode st.nodes ids[0]).data = some none := by
      rw [hdata]
      rfl
    have hszpos : 0 < st.size := by
      rw [habs.sizeEq]
      omega
    refine ⟨?_, ?_, ?_⟩
    · have hb : st.head.bind (fun h => (getNode st.nodes h).data) = some none := by
        rw [hh]
        exact hd0
      unfold front
      rw [hb]
      rfl
    · obtain ⟨hkl', hg⟩ := (get_spec habs 0).1 (by omega) (by omega)
      rw [hg]
      rfl
    · cases hids : ids with
      | nil => rw [hids] at hlen; simp at hlen
      | cons i rest =>
        subst hids
        exact (popFront_abs_cons habs).2
  · intro h
    obtain ⟨ids, habs⟩ := h
    have hlen : 0 < ids.length := by
      have := habs.toAbsCore.len_eq
      simp only [List.length_append, List.length_cons, List.length_nil] at this
      omega
    have hllen : (l ++ [none]).length = l.length + 1 := by simp
    have hszpos : 0 < st.size := by
      rw [habs.sizeEq]
      omega
    have hsz : st.size = ((l ++ [none]).length : Int) := by
      rw [habs.sizeEq, habs.toAbsCore.len_eq]
    refine ⟨?_, ?_, ?_⟩
    · have ht : st.tail = some ids[ids.length - 1] := by
        rw [habs.tailEq, List.getLast?_eq_getElem?,
          List.getElem?_eq_getElem (by omega)]
      obtain ⟨hkl, hdata⟩ := data_at_spine habs
        (show ids.length - 1 < ids.length from by omega)
      have hlast : (l ++ [none])[ids.length - 1] = (none : Option Int) := by
        have hli : ids.length - 1 = l.length := by
          have := habs.toAbsCore.len_eq
          rw [hllen] at this
          omega
        rw [List.getElem_append_right (by omega)]
        simp [hli]
      rw [hlast] at hdata
      have hb : st.tail.bind (fun t => (getNode st.nodes t).data) = some none := by
        rw [ht]
        exact hdata
      unfold back
      rw [hb]
      rfl
    · obtain ⟨hkl', hg⟩ := (get_spec habs (st.size - 1)).1 (by omega) (by omega)
      rw [hg]
      refine congrArg _ ?_
      have hti : (st.size - 1).toNat = l.length := by
        rw [hsz, hllen]
        omega
      rw [List.getElem_append_right (by omega)]
      simp [hti]
    · obtain ⟨lf, x0, hlx, -, hret⟩ := popBack_abs_ne_nil habs
        (by intro he; rw [he] at hlen; simp at hlen)
      have hx0 : x0 = none := by
        have h1 : (l ++ [(none : Option Int)]).getLast? = some none :=
          List.getLast?_concat _
        rw [hlx, List.getLast?_concat] at h1
        exact Option.some.inj h1
      rw [hret, hx0]

theorem claim_c10_null_coercion_witness :
    front Option.isNone (createFromArray ([none, some 5] : List (Option Int))) = none ∧
    get (createFromArray ([none, some 5] : List (Option Int))) 0 = some none ∧
    (popFront (createFromArray ([none, some 5] : List (Option Int)))).2 = some none ∧
    back Option.isNone (createFromArray ([some 5, none] : List (Option Int))) = none ∧
    get (createFromArray ([some 5, none] : List (Option Int)))
      ((createFromArray ([some 5, none] : List (Option Int))).size - 1) = some none ∧
    (popBack (createFromArray ([some 5, none] : List (Option Int)))).2 = some none := by
  have hm2 : Models (createFromArray ([some 5, none] : List (Option Int)))
      ([some 5] ++ [none]) := createFromArray_models [some 5, none]
  have h1 := (claim_c10_null_coercion
    (createFromArray ([none, some 5] : List (Option Int))) [some 5]).1
    (createFromArray_models [none, some 5])
  have h2 := (claim_c10_null_coercion
    (createFromArray ([some 5, none] : List (Option Int))) [some 5]).2 hm2
  exact ⟨h1.1, h1.2.1, h1.2.2, h2.1, h2.2.1, h2.2.2⟩

end JsDeque
